import Mathlib

/-!
# Verification of the polyrev orchestration core

Shallow embedding of the polyrev review/planning orchestrator (Rust) into
Lean 4, together with proofs of the specification claims.

Conventions:
* Rust `u32`/`u64`/`usize` values are modelled as `Nat`; where overflow
  semantics matter the reduction `% 2^64` (wrapping) or `min _ (2^64-1)`
  (saturating) is applied explicitly.
* Rust `Result<T, E>` is `Except E T`, `Option<T>` is `Option T`.
* A Rust panic is modelled as `Option.none` at the function's outermost level.
* `PathBuf` values are modelled as plain strings (the code only ever passes
  them through and `display`s them).
* Async effects (sleeps, process spawns) have no observable value-level
  content; the *sequence* of invocations and sleep durations of the retry
  loop is returned as an explicit trace so that claims about invocation
  counts and backoff delays can be stated.
-/

set_option maxRecDepth 100000

namespace Polyrev

/-! ## Priorities (src/config/types.rs `Priority`) -/

inductive Priority where
  | P0
  | P1
  | P2
deriving DecidableEq, Repr

/-! ## File chunking (src/discovery/files.rs `chunk_files`)

Rust's slice `chunks(size)` (for `size > 0`): successive groups of `size`
elements, the last group possibly smaller.  `chunksOf` peels one element to
make the recursion structural; for `size ≥ 1`,
`l.take size = a :: l'.take (size-1)` and `l.drop size = l'.drop (size-1)`. -/

def chunksOf {α : Type} (size : Nat) : List α → List (List α)
  | [] => []
  | a :: l => (a :: l.take (size - 1)) :: chunksOf size (l.drop (size - 1))
termination_by l => l.length
decreasing_by simp [List.length_drop]; omega

/-- `chunk_files` from src/discovery/files.rs:
`if max_size == 0 || files.len() <= max_size { return vec![files.to_vec()] }`
then `files.chunks(max_size)`. -/
def chunk_files {α : Type} (files : List α) (max_size : Nat) : List (List α) :=
  if max_size = 0 ∨ files.length ≤ max_size then [files]
  else chunksOf max_size files

theorem chunksOf_flatten {α : Type} (size : Nat) :
    ∀ l : List α, (chunksOf size l).flatten = l
  | [] => by simp [chunksOf]
  | a :: l => by
      rw [chunksOf]
      simp only [List.flatten_cons]
      rw [chunksOf_flatten size (l.drop (size - 1))]
      simp [List.take_append_drop]
termination_by l => l.length
decreasing_by simp [List.length_drop]; omega

theorem chunksOf_ne_nil {α : Type} (size : Nat) (a : α) (l : List α) :
    chunksOf size (a :: l) ≠ [] := by
  rw [chunksOf]; simp

theorem chunksOf_length {α : Type} (size : Nat) (hs : 0 < size) :
    ∀ l : List α, l ≠ [] → (chunksOf size l).length = (l.length - 1) / size + 1
  | [], h => absurd rfl h
  | a :: l, _ => by
      rw [chunksOf]
      by_cases hle : l.length ≤ size - 1
      · have hdrop : l.drop (size - 1) = [] := by
          apply List.drop_eq_nil_of_le; omega
        rw [hdrop]
        simp only [chunksOf, List.length_cons, List.length_nil]
        have h3 : l.length + 1 - 1 = l.length := by omega
        rw [h3, Nat.div_eq_of_lt (by omega)]
      · have hne : l.drop (size - 1) ≠ [] := by
          intro h
          have := List.drop_eq_nil_iff.mp h
          omega
        have ih := chunksOf_length size hs (l.drop (size - 1)) hne
        simp only [List.length_cons, ih, List.length_drop]
        have h4 : l.length + 1 - 1 = (l.length - (size - 1) - 1) + size := by omega
        rw [h4, Nat.add_div_right _ hs]
termination_by l => l.length
decreasing_by simp [List.length_drop]; omega

theorem chunksOf_dropLast {α : Type} (size : Nat) (hs : 0 < size) :
    ∀ l : List α, ∀ c ∈ (chunksOf size l).dropLast, c.length = size
  | [] => by simp [chunksOf]
  | a :: l => by
      rw [chunksOf]
      by_cases hdrop : l.drop (size - 1) = []
      · rw [hdrop]
        simp [chunksOf]
      · have hrest : chunksOf size (l.drop (size - 1)) ≠ [] := by
          cases h : l.drop (size - 1) with
          | nil => exact absurd h hdrop
          | cons b bs => exact chunksOf_ne_nil size b bs
        rw [List.dropLast_cons_of_ne_nil hrest]
        intro c hc
        rcases List.mem_cons.mp hc with hc | hc
        · subst hc
          have hlen : size - 1 ≤ l.length := by
            rcases Nat.lt_or_ge l.length (size - 1) with h | h
            · exact absurd (List.drop_eq_nil_of_le (by omega)) hdrop
            · exact h
          simp only [List.length_cons, List.length_take]
          omega
        · exact chunksOf_dropLast size hs (l.drop (size - 1)) c hc
termination_by l => l.length
decreasing_by simp [List.length_drop]; omega

theorem chunksOf_getLast {α : Type} (size : Nat) (hs : 0 < size) :
    ∀ l : List α, l ≠ [] → ¬ size ∣ l.length →
      ∃ c, (chunksOf size l).getLast? = some c ∧ c.length = l.length % size
  | [], h, _ => absurd rfl h
  | a :: l, _, hnd => by
      rw [chunksOf]
      by_cases hdrop : l.drop (size - 1) = []
      · have hle : l.length ≤ size - 1 := by
          rcases Nat.lt_or_ge l.length (size - 1) with h | h
          · omega
          · have := List.drop_eq_nil_iff.mp hdrop; omega
        rw [hdrop]
        refine ⟨a :: l.take (size - 1), by simp [chunksOf], ?_⟩
        have htake : l.take (size - 1) = l := List.take_of_length_le hle
        rw [htake]
        have hlt : (a :: l).length < size := by
          simp only [List.length_cons]
          rcases Nat.lt_or_ge (l.length + 1) size with h | h
          · exact h
          · exfalso
            have : l.length + 1 = size := by omega
            exact hnd (this ▸ dvd_refl size)
        simp only [List.length_cons] at hlt ⊢
        rw [Nat.mod_eq_of_lt hlt]
      · have hne : l.drop (size - 1) ≠ [] := hdrop
        have hgel : size - 1 ≤ l.length := by
          rcases Nat.lt_or_ge l.length (size - 1) with h | h
          · exact absurd (List.drop_eq_nil_of_le (by omega)) hdrop
          · exact h
        have hnd' : ¬ size ∣ (l.drop (size - 1)).length := by
          simp only [List.length_drop]
          intro hdvd
          apply hnd
          have heq : (a :: l).length = (l.length - (size - 1)) + size := by
            simp only [List.length_cons]; omega
          rw [heq]
          exact Nat.dvd_add hdvd (dvd_refl size)
        obtain ⟨c, hc, hclen⟩ := chunksOf_getLast size hs (l.drop (size - 1)) hne hnd'
        have hrest : chunksOf size (l.drop (size - 1)) ≠ [] := by
          cases h : l.drop (size - 1) with
          | nil => exact absurd h hdrop
          | cons b bs => exact chunksOf_ne_nil size b bs
        refine ⟨c, ?_, ?_⟩
        · rcases hrestval : chunksOf size (l.drop (size - 1)) with _ | ⟨b, bs⟩
          · exact absurd hrestval hrest
          · rw [List.getLast?_cons_cons]
            rw [hrestval] at hc
            exact hc
        · rw [hclen]
          simp only [List.length_drop, List.length_cons]
          have heq : l.length + 1 = (l.length - (size - 1)) + size := by omega
          rw [heq, Nat.add_mod_right]
termination_by l => l.length
decreasing_by simp [List.length_drop]; omega

/-- C6: for `0 < m < n` with `m` not dividing `n`, `chunk_files` returns
`⌈n/m⌉` groups in input order, all but the last of size `m`, the last of size
`n % m`, and the groups concatenate back to the input list. -/
theorem C6_chunk_files {α : Type} (files : List α) (m : Nat)
    (hm : 0 < m) (hlt : m < files.length) (hnd : files.length % m ≠ 0) :
    (chunk_files files m).length = (files.length + m - 1) / m ∧
    (∀ c ∈ (chunk_files files m).dropLast, c.length = m) ∧
    (∃ c, (chunk_files files m).getLast? = some c ∧
      c.length = files.length % m) ∧
    (chunk_files files m).flatten = files := by
  have hne : files ≠ [] := by
    intro h; rw [h] at hlt; simp at hlt
  have hcf : chunk_files files m = chunksOf m files := by
    unfold chunk_files
    rw [if_neg]
    push_neg
    exact ⟨by omega, by omega⟩
  rw [hcf]
  refine ⟨?_, chunksOf_dropLast m hm files,
    chunksOf_getLast m hm files hne (by rwa [Nat.dvd_iff_mod_eq_zero]),
    chunksOf_flatten m files⟩
  rw [chunksOf_length m hm files hne]
  have h4 : files.length + m - 1 = (files.length - 1) + m := by omega
  rw [h4, Nat.add_div_right _ hm]

/-- Witness for C6 at a concrete input: 7 files in chunks of 3. -/
theorem C6_chunk_files_witness :
    0 < 3 ∧ 3 < ([0, 1, 2, 3, 4, 5, 6] : List Nat).length ∧
    ([0, 1, 2, 3, 4, 5, 6] : List Nat).length % 3 ≠ 0 ∧
    ((chunk_files ([0, 1, 2, 3, 4, 5, 6] : List Nat) 3).length =
        (([0, 1, 2, 3, 4, 5, 6] : List Nat).length + 3 - 1) / 3 ∧
      (∀ c ∈ (chunk_files ([0, 1, 2, 3, 4, 5, 6] : List Nat) 3).dropLast,
        c.length = 3) ∧
      (∃ c, (chunk_files ([0, 1, 2, 3, 4, 5, 6] : List Nat) 3).getLast? = some c ∧
        c.length = ([0, 1, 2, 3, 4, 5, 6] : List Nat).length % 3) ∧
      (chunk_files ([0, 1, 2, 3, 4, 5, 6] : List Nat) 3).flatten =
        ([0, 1, 2, 3, 4, 5, 6] : List Nat)) :=
  ⟨by decide, by decide, by decide,
    C6_chunk_files [0, 1, 2, 3, 4, 5, 6] 3 (by decide) (by decide) (by decide)⟩

/-! ## Retry with backoff (src/runner/retry.rs `retry_with_backoff`)

The async operation is modelled as `op : Nat → Except E T`, where `op k` is
the outcome of its `(k+1)`-th invocation; the `rand::random::<u64>()` draws
are the stream `rand : Nat → Nat` (`rand k` drawn after the `(k+1)`-th
failure).  The function returns `none` when the Rust code panics
(`rand % backoff_base_ms` with a zero base is a remainder by zero).
Besides the `Result`, the trace records the number of invocations made and
the list of sleep delays in ms (ghost observations of the loop's effects).
`backoff_ms.saturating_mul(2)` saturates at `u64::MAX`; `backoff_ms + jitter`
is u64 arithmetic (wrapping in release builds), hence the `% 2^64`. -/

def U64_MOD : Nat := 2 ^ 64

def u64SatMul2 (x : Nat) : Nat := min (x * 2) (U64_MOD - 1)

def u64WrapAdd (x y : Nat) : Nat := (x + y) % U64_MOD

structure RetryConfig where
  max_attempts : Nat
  backoff_base_ms : Nat
deriving DecidableEq, Repr

structure RetryTrace (E T : Type) where
  result : Except E T
  attempts : Nat
  delays : List Nat

/-- The retry loop.  `k` is the 0-based index of the current invocation,
`backoff` the current `backoff_ms`, `remaining = max_attempts - k` the
number of attempts still allowed (the Rust guard `attempts >= max_attempts`
is `remaining ≤ 1` after this invocation). -/
def retryGo {E T : Type} (base : Nat) (op : Nat → Except E T) (rand : Nat → Nat) :
    Nat → Nat → Nat → Option (RetryTrace E T)
  | k, _, 0 =>
    match op k with
    | .ok v => some ⟨.ok v, k + 1, []⟩
    | .error e => some ⟨.error e, k + 1, []⟩
  | k, _, 1 =>
    match op k with
    | .ok v => some ⟨.ok v, k + 1, []⟩
    | .error e => some ⟨.error e, k + 1, []⟩
  | k, backoff, r + 2 =>
    match op k with
    | .ok v => some ⟨.ok v, k + 1, []⟩
    | .error _ =>
      if base = 0 then none
      else
        match retryGo base op rand (k + 1) (u64SatMul2 backoff) (r + 1) with
        | none => none
        | some t =>
          some ⟨t.result, t.attempts, u64WrapAdd backoff (rand k % base) :: t.delays⟩

/-- `retry_with_backoff` from src/runner/retry.rs. -/
def retry_with_backoff {E T : Type} (config : RetryConfig)
    (op : Nat → Except E T) (rand : Nat → Nat) : Option (RetryTrace E T) :=
  retryGo config.backoff_base_ms op rand 0 config.backoff_base_ms config.max_attempts

/-- Just the returned `Result` (`none` = panic). -/
def retryResult {E T : Type} (config : RetryConfig)
    (op : Nat → Except E T) (rand : Nat → Nat) : Option (Except E T) :=
  (retry_with_backoff config op rand).map (·.result)

theorem retryGo_isSome {E T : Type} (base : Nat) (op : Nat → Except E T)
    (rand : Nat → Nat) (hb : 0 < base) :
    ∀ r k backoff, (retryGo base op rand k backoff r).isSome
  | 0, k, backoff => by
      rw [retryGo]
      cases op k <;> simp
  | 1, k, backoff => by
      rw [retryGo]
      cases op k <;> simp
  | r + 2, k, backoff => by
      rw [retryGo]
      cases op k with
      | ok v => simp
      | error e =>
        simp only
        rw [if_neg (by omega)]
        have := retryGo_isSome base op rand hb (r + 1) (k + 1) (u64SatMul2 backoff)
        cases h : retryGo base op rand (k + 1) (u64SatMul2 backoff) (r + 1) with
        | none => rw [h] at this; simp at this
        | some t => simp

theorem retryGo_all_fail {E T : Type} (base : Nat) (op : Nat → Except E T)
    (rand : Nat → Nat) (err : Nat → E) (hb : 0 < base)
    (hf : ∀ j, op j = .error (err j)) :
    ∀ r k backoff, 1 ≤ r →
      ∃ ds, retryGo base op rand k backoff r =
        some ⟨.error (err (k + r - 1)), k + r, ds⟩
  | 0, k, backoff, h => absurd h (by omega)
  | 1, k, backoff, _ => by
      rw [retryGo, hf k]
      exact ⟨[], rfl⟩
  | r + 2, k, backoff, _ => by
      rw [retryGo, hf k]
      simp only
      rw [if_neg (by omega)]
      obtain ⟨ds, hds⟩ :=
        retryGo_all_fail base op rand err hb hf (r + 1) (k + 1) (u64SatMul2 backoff)
          (by omega)
      rw [hds]
      refine ⟨u64WrapAdd backoff (rand k % base) :: ds, ?_⟩
      have h1 : k + 1 + (r + 1) - 1 = k + (r + 2) - 1 := by omega
      have h2 : k + 1 + (r + 1) = k + (r + 2) := by omega
      simp [h1, h2]

theorem retryGo_succeeds_at {E T : Type} (base : Nat) (op : Nat → Except E T)
    (rand : Nat → Nat) (v : T) (hb : 0 < base) (m : Nat)
    (hsucc : op m = .ok v) :
    ∀ r k backoff, k ≤ m → (∀ j, k ≤ j → j < m → ∃ e, op j = .error e) →
      m < k + r →
      ∃ ds, retryGo base op rand k backoff r = some ⟨.ok v, m + 1, ds⟩
  | 0, k, backoff, _, _, hm => absurd hm (by omega)
  | 1, k, backoff, hle, hfail, hm => by
      have hkm : k = m := by omega
      subst hkm
      rw [retryGo, hsucc]
      exact ⟨[], rfl⟩
  | r + 2, k, backoff, hle, hfail, hm => by
      rcases Nat.eq_or_lt_of_le hle with hkm | hkm
      · subst hkm
        rw [retryGo, hsucc]
        exact ⟨[], rfl⟩
      · obtain ⟨e, he⟩ := hfail k (Nat.le_refl k) hkm
        rw [retryGo, he]
        simp only
        rw [if_neg (by omega)]
        obtain ⟨ds, hds⟩ :=
          retryGo_succeeds_at base op rand v hb m hsucc (r + 1) (k + 1)
            (u64SatMul2 backoff) (by omega)
            (fun j hj₁ hj₂ => hfail j (by omega) hj₂) (by omega)
        rw [hds]
        exact ⟨u64WrapAdd backoff (rand k % base) :: ds, rfl⟩

/-- C2: with a positive backoff base and `max_attempts = N ≥ 1`:
an always-failing operation is invoked exactly `N` times and the error of the
final invocation is returned unchanged; an operation failing on invocations
`1..k-1` and succeeding on invocation `k ≤ N` is invoked exactly `k` times and
its success value is returned. -/
theorem C2_retry_attempt_counts {E T : Type} (config : RetryConfig)
    (op₁ op₂ : Nat → Except E T) (rand : Nat → Nat) (err : Nat → E) (v : T)
    (hb : 0 < config.backoff_base_ms) (hN : 1 ≤ config.max_attempts) :
    ((∀ j, op₁ j = .error (err j)) →
      ∃ ds, retry_with_backoff config op₁ rand =
        some ⟨.error (err (config.max_attempts - 1)), config.max_attempts, ds⟩) ∧
    (∀ k, 1 ≤ k → k ≤ config.max_attempts →
      (∀ j, j < k - 1 → op₂ j = .error (err j)) → op₂ (k - 1) = .ok v →
      ∃ ds, retry_with_backoff config op₂ rand = some ⟨.ok v, k, ds⟩) := by
  constructor
  · intro hf
    obtain ⟨ds, hds⟩ := retryGo_all_fail config.backoff_base_ms op₁ rand err hb hf
      config.max_attempts 0 config.backoff_base_ms hN
    rw [retry_with_backoff]
    rw [hds]
    simp
  · intro k hk1 hkN hfail hsucc
    obtain ⟨ds, hds⟩ := retryGo_succeeds_at config.backoff_base_ms op₂ rand v hb
      (k - 1) hsucc config.max_attempts 0 config.backoff_base_ms (by omega)
      (fun j _ hj => ⟨err j, hfail j hj⟩) (by omega)
    rw [retry_with_backoff, hds]
    exact ⟨ds, by congr 1; simp; omega⟩

/-- Witness for C2: `max_attempts = 3`, base 10 ms.  An always-failing
operation is invoked exactly 3 times and returns the last error; an operation
failing twice then succeeding returns 42 after exactly 3 invocations. -/
theorem C2_retry_attempt_counts_witness :
    (0 : Nat) < 10 ∧ (1 : Nat) ≤ 3 ∧
    ((∃ ds, retry_with_backoff (E := String) (T := Nat) ⟨3, 10⟩
        (fun _ => .error "always fails") (fun _ => 5) =
        some ⟨.error "always fails", 3, ds⟩) ∧
      (∃ ds, retry_with_backoff (E := String) (T := Nat) ⟨3, 10⟩
        (fun j => if j < 2 then .error "not yet" else .ok 42) (fun _ => 5) =
        some ⟨.ok 42, 3, ds⟩)) := by
  refine ⟨by decide, by decide, ?_, ?_⟩
  · exact (C2_retry_attempt_counts ⟨3, 10⟩ (fun _ => .error "always fails")
      (fun _ => .error "always fails") (fun _ => 5) (fun _ => "always fails") 0
      (by decide) (by decide)).1 (fun _ => rfl)
  · exact (C2_retry_attempt_counts ⟨3, 10⟩ (fun _ => .error "always fails")
      (fun j => if j < 2 then .error "not yet" else .ok 42) (fun _ => 5)
      (fun _ => "not yet") 42 (by decide) (by decide)).2 3 (by decide) (by decide)
      (fun j hj => by
        have : j < 2 := by omega
        simp [this])
      (by simp)

theorem retryGo_delay_at {E T : Type} (base : Nat) (op : Nat → Except E T)
    (rand : Nat → Nat) (hb : 0 < base) :
    ∀ i k backoff r, (∀ j, j ≤ i → ∃ e, op (k + j) = .error e) → i + 1 < r →
      ∃ t, retryGo base op rand k backoff r = some t ∧
        t.delays.get? i = some (u64WrapAdd (u64SatMul2^[i] backoff) (rand (k + i) % base))
  | 0, k, backoff, r, hfail, hr => by
      obtain ⟨e, he⟩ := hfail 0 (Nat.le_refl 0)
      rw [Nat.add_zero] at he
      obtain ⟨r', hr'⟩ : ∃ r', r = r' + 2 := ⟨r - 2, by omega⟩
      subst hr'
      rw [retryGo, he]
      simp only
      rw [if_neg (by omega)]
      have hsome := retryGo_isSome base op rand hb (r' + 1) (k + 1) (u64SatMul2 backoff)
      cases h : retryGo base op rand (k + 1) (u64SatMul2 backoff) (r' + 1) with
      | none => rw [h] at hsome; simp at hsome
      | some t' =>
          refine ⟨_, rfl, ?_⟩
          simp [Function.iterate_zero_apply]
  | i + 1, k, backoff, r, hfail, hr => by
      obtain ⟨e, he⟩ := hfail 0 (Nat.zero_le _)
      rw [Nat.add_zero] at he
      obtain ⟨r', hr'⟩ : ∃ r', r = r' + 2 := ⟨r - 2, by omega⟩
      subst hr'
      rw [retryGo, he]
      simp only
      rw [if_neg (by omega)]
      obtain ⟨t', ht', hget⟩ :=
        retryGo_delay_at base op rand hb i (k + 1) (u64SatMul2 backoff) (r' + 1)
          (fun j hj => by
            obtain ⟨e', he'⟩ := hfail (j + 1) (by omega)
            exact ⟨e', by rw [← he']; congr 1; omega⟩)
          (by omega)
      rw [ht']
      refine ⟨_, rfl, ?_⟩
      simp only [List.get?_cons_succ]
      have hki : k + 1 + i = k + (i + 1) := by omega
      rw [hget, ← Function.iterate_succ_apply, hki]

theorem u64SatMul2_iterate_no_sat :
    ∀ (k b : Nat), b * 2 ^ k < U64_MOD → u64SatMul2^[k] b = b * 2 ^ k
  | 0, b, _ => by simp
  | k + 1, b, h => by
      rw [Function.iterate_succ_apply]
      have hb2 : u64SatMul2 b = b * 2 := by
        unfold u64SatMul2
        apply Nat.min_eq_left
        have h2 : b * 2 ≤ b * 2 ^ (k + 1) := by
          apply Nat.mul_le_mul_left
          have : (2 : Nat) = 2 ^ 1 := rfl
          calc (2 : Nat) = 2 ^ 1 := rfl
            _ ≤ 2 ^ (k + 1) := Nat.pow_le_pow_right (by omega) (by omega)
        omega
      rw [hb2, u64SatMul2_iterate_no_sat k (b * 2)
        (by rw [Nat.mul_assoc, ← Nat.pow_succ']; exact h)]
      rw [Nat.mul_assoc, ← Nat.pow_succ']

/-- C8: in `retry_with_backoff` with base `B`, the sleep inserted before
attempt `k+1` (attempts numbered from 0, so `delays.get? k`, the `(k+1)`-th
sleep) equals `B * 2^k + uniform_random(0, B)` ms — full jitter added on top
of the exponential term — provided the first `k+1` invocations fail and the
u64 arithmetic does not saturate. -/
theorem C8_backoff_delay {E T : Type} (config : RetryConfig)
    (op : Nat → Except E T) (rand : Nat → Nat) (k : Nat)
    (hb : 0 < config.backoff_base_ms)
    (hfail : ∀ j, j ≤ k → ∃ e, op j = .error e)
    (hk : k + 1 < config.max_attempts)
    (hnosat : config.backoff_base_ms * 2 ^ k +
      rand k % config.backoff_base_ms < U64_MOD) :
    ∃ t, retry_with_backoff config op rand = some t ∧
      t.delays.get? k =
        some (config.backoff_base_ms * 2 ^ k + rand k % config.backoff_base_ms) := by
  obtain ⟨t, ht, hget⟩ := retryGo_delay_at config.backoff_base_ms op rand hb k 0
    config.backoff_base_ms config.max_attempts
    (fun j hj => by simpa using hfail j hj) hk
  refine ⟨t, ht, ?_⟩
  rw [hget]
  rw [u64SatMul2_iterate_no_sat k config.backoff_base_ms (by omega)]
  unfold u64WrapAdd
  rw [Nat.mod_eq_of_lt (by simpa using hnosat)]
  simp

/-- Witness for C8: base 10, `max_attempts` 4, all attempts fail; the sleep
before the 3rd invocation (index 1) is `10 * 2 + rand 1 % 10 = 25` ms. -/
theorem C8_backoff_delay_witness :
    (0 : Nat) < 10 ∧ 1 + 1 < 4 ∧
    (∃ t, retry_with_backoff (E := String) (T := Nat) ⟨4, 10⟩
        (fun _ => .error "boom") (fun _ => 5) = some t ∧
      t.delays.get? 1 = some (10 * 2 ^ 1 + 5 % 10)) :=
  ⟨by decide, by decide,
    C8_backoff_delay ⟨4, 10⟩ (fun _ => .error "boom") (fun _ => 5) 1
      (by decide) (fun j _ => ⟨"boom", rfl⟩) (by decide) (by decide)⟩

/-- C10: `retry_with_backoff` is total only for `backoff_base_ms > 0`.
With a zero base, any failure on a non-final attempt reaches
`rand::random::<u64>() % config.backoff_base_ms`, a remainder by zero, and
panics (modelled as `none`); with a positive base the function always
returns a value. -/
theorem C10_backoff_base_zero_panics {E T : Type} (config : RetryConfig)
    (op : Nat → Except E T) (rand : Nat → Nat) :
    (config.backoff_base_ms = 0 →
      ∀ j, j + 1 < config.max_attempts → (∀ i, i ≤ j → ∃ e, op i = .error e) →
      retry_with_backoff config op rand = none) ∧
    (0 < config.backoff_base_ms → (retry_with_backoff config op rand).isSome) := by
  constructor
  · intro hzero j hj hfail
    obtain ⟨e, he⟩ := hfail 0 (Nat.zero_le j)
    obtain ⟨r', hr'⟩ : ∃ r', config.max_attempts = r' + 2 := ⟨config.max_attempts - 2, by omega⟩
    rw [retry_with_backoff, hr', retryGo, he]
    simp only
    rw [if_pos hzero]
  · intro hb
    exact retryGo_isSome config.backoff_base_ms op rand hb config.max_attempts 0
      config.backoff_base_ms

/-- Witness for C10: with `max_attempts = 3`: base 0 and a failing operation
panic (`none`); base 10 always returns a value. -/
theorem C10_backoff_base_zero_panics_witness :
    (retry_with_backoff (E := String) (T := Nat) ⟨3, 0⟩
      (fun _ => .error "boom") (fun _ => 5) = none) ∧
    (retry_with_backoff (E := String) (T := Nat) ⟨3, 10⟩
      (fun _ => .error "boom") (fun _ => 5)).isSome :=
  ⟨(C10_backoff_base_zero_panics ⟨3, 0⟩ (fun _ => .error "boom") (fun _ => 5)).1
      rfl 0 (by decide) (fun i _ => ⟨"boom", rfl⟩),
    (C10_backoff_base_zero_panics ⟨3, 10⟩ (fun _ => .error "boom") (fun _ => 5)).2
      (by decide)⟩

/-! ## Findings (src/parser/finding.rs `Finding`)

`PathBuf` is modelled as `String` (`file.display()` renders the stored
path verbatim); `line : u32` as `Nat` (values < 2^32 enforced where parsed). -/

structure Finding where
  id : String
  finding_type : String
  title : String
  priority : Priority
  file : String
  line : Nat
  snippet : Option String
  description : String
  remediation : String
  acceptance_criteria : List String
  references : List String
deriving DecidableEq, Repr

/-! ## Markdown-table fallback parser (src/parser/markdown.rs)

The row regex
`(?m)^\|\s*([^|]+)\s*\|\s*(\d+)\s*\|\s*(p[012]|high|medium|low|critical)\s*\|\s*([^|]+)\s*\|\s*([^|]+)\s*\|\s*([^|]+)\s*\|`
is embedded as a per-line matcher: `(?m)^` anchors each match at a line
start, so the text is split on newlines and each line matched from its
start (rows spanning line breaks via `\s`-matched newlines are out of
scope of this model).  A segment between two pipes matches
`\s*([^|]+)\s*` exactly when it is nonempty, with the capture equal (after
the code's `.trim()`) to the whitespace-trimmed segment; `\s*(\d+)\s*`
requires the trimmed segment to be a nonempty digit string, and the
severity alternation requires the trimmed segment to be one of the seven
lowercase tokens.  `\s`/`trim` use Unicode `White_Space`; `\d` is modelled
as ASCII digits (str::parse would reject non-ASCII digits anyway). -/

def rustIsWhitespace (c : Char) : Bool :=
  let n := c.toNat
  (0x09 ≤ n && n ≤ 0x0D) || n == 0x20 || n == 0x85 || n == 0xA0 ||
  n == 0x1680 || (0x2000 ≤ n && n ≤ 0x200A) || n == 0x2028 || n == 0x2029 ||
  n == 0x202F || n == 0x205F || n == 0x3000

def trimChars (l : List Char) : List Char :=
  ((l.dropWhile rustIsWhitespace).reverse.dropWhile rustIsWhitespace).reverse

def rustTrim (s : String) : String := String.mk (trimChars s.data)

def asciiLowerChar (c : Char) : Char :=
  if 'A' ≤ c ∧ c ≤ 'Z' then Char.ofNat (c.toNat + 32) else c

def asciiUpperChar (c : Char) : Char :=
  if 'a' ≤ c ∧ c ≤ 'z' then Char.ofNat (c.toNat - 32) else c

def asciiLower (s : String) : String := String.mk (s.data.map asciiLowerChar)

def asciiUpper (s : String) : String := String.mk (s.data.map asciiUpperChar)

/-- Split a character list at the first `'|'`: the segment before it and the
remainder after it. -/
def splitAtPipe : List Char → Option (List Char × List Char)
  | [] => none
  | c :: rest =>
    if c = '|' then some ([], rest)
    else
      match splitAtPipe rest with
      | none => none
      | some (seg, r) => some (c :: seg, r)

def digitsToNat (l : List Char) : Nat :=
  l.foldl (fun acc c => acc * 10 + (c.toNat - 48)) 0

/-- The six captures of one table row (capture 2 kept as its digit string). -/
structure RowCaps where
  file : String
  lineDigits : String
  severity : String
  ftype : String
  issue : String
  recommendation : String
deriving DecidableEq, Repr

def severityTokens : List String :=
  ["p0", "p1", "p2", "high", "medium", "low", "critical"]

/-- The severity `match` of src/parser/markdown.rs (lines 33–38). -/
def severityToPriority (s : String) (default_priority : Priority) : Priority :=
  if s = "p0" ∨ s = "critical" ∨ s = "high" then .P0
  else if s = "p1" ∨ s = "medium" then .P1
  else if s = "p2" ∨ s = "low" then .P2
  else default_priority

/-- Match the table-row regex against one line (from its start). -/
def matchRow (line : String) : Option RowCaps :=
  match line.data with
  | '|' :: rest =>
    match splitAtPipe rest with
    | none => none
    | some (s1, r1) =>
      if s1 = [] then none else
      match splitAtPipe r1 with
      | none => none
      | some (s2, r2) =>
        let t2 := trimChars s2
        if t2 = [] ∨ ¬ t2.all Char.isDigit then none else
        match splitAtPipe r2 with
        | none => none
        | some (s3, r3) =>
          let t3 := String.mk (trimChars s3)
          if t3 ∉ severityTokens then none else
          match splitAtPipe r3 with
          | none => none
          | some (s4, r4) =>
            if s4 = [] then none else
            match splitAtPipe r4 with
            | none => none
            | some (s5, r5) =>
              if s5 = [] then none else
              match splitAtPipe r5 with
              | none => none
              | some (s6, _) =>
                if s6 = [] then none else
                some ⟨String.mk (trimChars s1), String.mk t2, t3,
                  String.mk (trimChars s4), String.mk (trimChars s5),
                  String.mk (trimChars s6)⟩
  | _ => none

/-- The `captures_iter` loop of `try_parse_markdown_table`.  `none` models
the Rust `?` aborting the whole function when `str::parse::<u32>` fails
(digit string overflowing u32). -/
def mdGo (reviewer_id : String) (default_priority : Priority) :
    List String → List Finding → Option (List Finding)
  | [], acc => some acc
  | line :: rest, acc =>
    match matchRow line with
    | none => mdGo reviewer_id default_priority rest acc
    | some caps =>
      let lineVal := digitsToNat caps.lineDigits.data
      if 2 ^ 32 ≤ lineVal then none
      else if asciiLower caps.file = "file" then
        mdGo reviewer_id default_priority rest acc
      else
        mdGo reviewer_id default_priority rest (acc ++
          [{ id := asciiUpper reviewer_id ++ "-" ++ toString (acc.length + 1),
             finding_type := caps.ftype,
             title := caps.issue,
             priority := severityToPriority caps.severity default_priority,
             file := caps.file,
             line := lineVal,
             snippet := none,
             description := caps.issue,
             remediation := caps.recommendation,
             acceptance_criteria := [],
             references := [] }])

/-- Split a character list on a separator character (like `str::lines` /
`String.splitOn`, but by kernel-reducible structural recursion). -/
def splitOnChar (c : Char) : List Char → List (List Char)
  | [] => [[]]
  | a :: rest =>
    if a = c then [] :: splitOnChar c rest
    else
      match splitOnChar c rest with
      | [] => [[a]]
      | seg :: segs => (a :: seg) :: segs

def splitLines (s : String) : List String :=
  (splitOnChar (Char.ofNat 10) s.data).map String.mk

/-- `try_parse_markdown_table` from src/parser/markdown.rs. -/
def try_parse_markdown_table (raw : String) (reviewer_id : String)
    (default_priority : Priority) : Option (List Finding) :=
  match mdGo reviewer_id default_priority (splitLines raw) [] with
  | none => none
  | some findings => if findings = [] then none else some findings

theorem mdGo_ids (reviewer_id : String) (default_priority : Priority) :
    ∀ (lines : List String) (acc : List Finding),
      (∀ j (hj : j < acc.length),
        (acc.get ⟨j, hj⟩).id = asciiUpper reviewer_id ++ "-" ++ toString (j + 1)) →
      ∀ fs, mdGo reviewer_id default_priority lines acc = some fs →
      ∀ i (hi : i < fs.length),
        (fs.get ⟨i, hi⟩).id = asciiUpper reviewer_id ++ "-" ++ toString (i + 1)
  | [], acc, hacc, fs, hfs => by
      rw [mdGo] at hfs
      cases hfs
      exact hacc
  | line :: rest, acc, hacc, fs, hfs => by
      rw [mdGo] at hfs
      cases hrow : matchRow line with
      | none =>
          rw [hrow] at hfs
          exact mdGo_ids reviewer_id default_priority rest acc hacc fs hfs
      | some caps =>
          rw [hrow] at hfs
          simp only at hfs
          by_cases hov : 2 ^ 32 ≤ digitsToNat caps.lineDigits.data
          · rw [if_pos hov] at hfs; cases hfs
          · rw [if_neg hov] at hfs
            by_cases hhdr : asciiLower caps.file = "file"
            · rw [if_pos hhdr] at hfs
              exact mdGo_ids reviewer_id default_priority rest acc hacc fs hfs
            · rw [if_neg hhdr] at hfs
              refine mdGo_ids reviewer_id default_priority rest _ ?_ fs hfs
              intro j hj
              rcases Nat.lt_or_ge j acc.length with hlt | hge
              · rw [List.get_append_left _ _ hlt]
                exact hacc j hlt
              · have hjeq : j = acc.length := by
                  simp only [List.length_append, List.length_cons,
                    List.length_nil] at hj
                  omega
                subst hjeq
                simp

/-- C7: the markdown-table fallback parser.  First conjunct: the concrete
two-data-row table yields exactly the two findings with priorities P0 and P1
and ids `REV-1`, `REV-2`.  Second group: the severity mapping sends
p0/critical/high to P0, p1/medium to P1, p2/low to P2, and any other value
to the supplied default.  Third conjunct: finding ids are always assigned
sequentially as `{REVIEWER_ID}-{n}`. -/
theorem C7_markdown_table :
    (try_parse_markdown_table
        ("| file | line | severity | type | issue | recommendation |\n" ++
         "|------|------|----------|------|-------|----------------|\n" ++
         "| src/db.py | 42 | p0 | sql-injection | SQL Injection | Use parameterized queries |\n" ++
         "| src/auth.py | 15 | p1 | hardcoded-secret | Hardcoded API key | Use env vars |")
        "rev" Priority.P2 =
      some
        [{ id := "REV-1", finding_type := "sql-injection",
           title := "SQL Injection", priority := .P0, file := "src/db.py",
           line := 42, snippet := none, description := "SQL Injection",
           remediation := "Use parameterized queries",
           acceptance_criteria := [], references := [] },
         { id := "REV-2", finding_type := "hardcoded-secret",
           title := "Hardcoded API key", priority := .P1, file := "src/auth.py",
           line := 15, snippet := none, description := "Hardcoded API key",
           remediation := "Use env vars",
           acceptance_criteria := [], references := [] }]) ∧
    ((∀ d, severityToPriority "p0" d = .P0 ∧ severityToPriority "critical" d = .P0 ∧
        severityToPriority "high" d = .P0) ∧
      (∀ d, severityToPriority "p1" d = .P1 ∧ severityToPriority "medium" d = .P1) ∧
      (∀ d, severityToPriority "p2" d = .P2 ∧ severityToPriority "low" d = .P2) ∧
      (∀ s d, s ∉ severityTokens → severityToPriority s d = d)) ∧
    (∀ raw reviewer_id default_priority fs,
      try_parse_markdown_table raw reviewer_id default_priority = some fs →
      ∀ i (hi : i < fs.length),
        (fs.get ⟨i, hi⟩).id = asciiUpper reviewer_id ++ "-" ++ toString (i + 1)) := by
  refine ⟨by decide, ⟨?_, ?_, ?_, ?_⟩, ?_⟩
  · intro d; exact ⟨rfl, rfl, rfl⟩
  · intro d; exact ⟨rfl, rfl⟩
  · intro d
    constructor
    · rfl
    · unfold severityToPriority
      rw [if_neg (by simp), if_neg (by simp), if_pos (by simp)]
  · intro s d hs
    simp only [severityTokens, List.mem_cons, List.not_mem_nil] at hs
    push_neg at hs
    obtain ⟨h0, h1, h2, hh, hm, hl, hc, _⟩ := hs
    unfold severityToPriority
    rw [if_neg (by tauto), if_neg (by tauto), if_neg (by tauto)]
  · intro raw reviewer_id default_priority fs hfs i hi
    unfold try_parse_markdown_table at hfs
    cases hgo : mdGo reviewer_id default_priority (splitLines raw) [] with
    | none => rw [hgo] at hfs; cases hfs
    | some findings =>
        rw [hgo] at hfs
        simp only at hfs
        by_cases hemp : findings = []
        · rw [if_pos hemp] at hfs; cases hfs
        · rw [if_neg hemp] at hfs
          cases hfs
          exact mdGo_ids reviewer_id default_priority _ [] (by simp) _ hgo i hi

/-- Witness for C7's hypothesis-bearing conjuncts: an unknown severity token
falls back to the default priority, and the ids of the concrete table parse
are sequential. -/
theorem C7_markdown_table_witness :
    ("weird" ∉ severityTokens ∧ severityToPriority "weird" Priority.P1 = Priority.P1) :=
  ⟨by decide, (C7_markdown_table.2.1.2.2.2) "weird" Priority.P1 (by decide)⟩

/-! ## Run state tracker (src/state.rs)

Timestamps are UTC instants modelled as `Int` milliseconds; chrono's
`Duration::hours(24)` is `86400000` ms.  `Utc::now()` is impure, so `now` is
an explicit parameter.  The `HashMap<String, ReviewerState>` is modelled as
an association list with `List.lookup`. -/

structure ReviewerState where
  last_run : Int
  findings_count : Nat
deriving DecidableEq, Repr

structure State where
  reviewers : List (String × ReviewerState)
deriving DecidableEq, Repr

/-- `State::ran_today`: an entry exists and `now - last_run < 24h`. -/
def State.ran_today (s : State) (now : Int) (reviewer_id : String) : Bool :=
  match s.reviewers.lookup reviewer_id with
  | some reviewer_state => now - reviewer_state.last_run < 86400000
  | none => false

/-! ## Configuration (src/config/types.rs, fields the orchestration core
reads; wall-clock-only fields such as `timeout_sec`, `launch_delay_ms` and
`concurrency` have no value-level effect in this model). -/

inductive Provider where
  | claudeCli
  | codexCli
deriving DecidableEq, Repr

structure Reviewer where
  id : String
  name : String
  enabled : Bool
  provider : Provider
  scopes : List String
  prompt_file : String
  priority_default : Priority
  max_files : Option Nat
deriving DecidableEq, Repr

structure Config where
  retry : RetryConfig
  max_files : Nat
  reviewers : List Reviewer

structure RunOptions where
  reviewer_filter : Option (List String)
  scope_filter : Option (List String)
  force : Bool
deriving Repr

inductive RunnerError where
  | noReviewersMatched
deriving DecidableEq, Repr

/-! ## Reviewer execution (src/runner/executor.rs `execute_reviewer`)

External effects are supplied as an environment: the outcome of file
discovery, of reading the prompt file, of each provider invocation
(`chunk index → retry attempt → outcome`), the random stream per chunk,
the freshly generated UUID, and the findings parser applied to a final
chunk's stdout (`parse_findings` with this reviewer's id and default
priority; modelled abstractly here, see `try_parse_markdown_table` for its
markdown stage).  Provider errors are carried as their display strings. -/

structure ProviderOutput where
  stdout : String
  session_id : Option String
deriving DecidableEq, Repr

structure ExecEnv where
  discover : Except String (List String)
  promptFile : Except String String
  provider : Nat → Nat → Except String ProviderOutput
  rand : Nat → Nat → Nat
  freshUuid : String
  parse : String → List Finding

inductive ReviewerStatus where
  | completed
  | skipped (reason : String)
  | timedOut
  | failed (error : String)
deriving DecidableEq, Repr

structure ReviewerResult where
  reviewer_id : String
  reviewer_name : String
  status : ReviewerStatus
  files_scanned : Nat
  findings : List Finding
deriving DecidableEq, Repr

/-- The mutable loop state of `execute_reviewer`'s chunk loop, plus the
ghost field `chunks_executed` counting chunks for which a provider call was
made (observing the loop's effects; the Rust code holds the first five as
local variables). -/
structure ChunkLoopState where
  all_findings : List Finding
  chunk_successes : Nat
  chunk_failures : Nat
  last_error : Option String
  session_id : Option String
  chunks_executed : Nat
deriving DecidableEq, Repr

/-- The `for (chunk_idx, chunk) in chunks.iter().enumerate()` loop
(src/runner/executor.rs lines 164–254).  `none` propagates a panic from the
retry helper.  A chunk failure before the last chunk `break`s; the last
chunk's output is parsed for findings, earlier chunks only acknowledged. -/
def chunkLoop (retry_config : RetryConfig) (env : ExecEnv) (total : Nat) :
    List (List String) → Nat → ChunkLoopState → Option ChunkLoopState
  | [], _, st => some st
  | _chunk :: rest, idx, st =>
    match retryResult retry_config (env.provider idx) (env.rand idx) with
    | none => none
    | some (.ok output) =>
      let st' : ChunkLoopState :=
        { all_findings :=
            if idx + 1 = total then st.all_findings ++ env.parse output.stdout
            else st.all_findings,
          chunk_successes := st.chunk_successes + 1,
          chunk_failures := st.chunk_failures,
          last_error := st.last_error,
          session_id :=
            match st.session_id with
            | none => output.session_id
            | some sid => some sid,
          chunks_executed := st.chunks_executed + 1 }
      chunkLoop retry_config env total rest (idx + 1) st'
    | some (.error e) =>
      let st' : ChunkLoopState :=
        { st with
          chunk_failures := st.chunk_failures + 1,
          last_error := some e,
          chunks_executed := st.chunks_executed + 1 }
      if 1 < total ∧ idx < total - 1 then some st'
      else chunkLoop retry_config env total rest (idx + 1) st'

/-- The final status computation (src/runner/executor.rs lines 256–270). -/
def chunkStatus (st : ChunkLoopState) : ReviewerStatus :=
  if st.chunk_successes = 0 then
    .failed (st.last_error.getD "all chunks failed")
  else if 0 < st.chunk_failures then
    .failed (toString st.chunk_failures ++ " of " ++
      toString (st.chunk_failures + st.chunk_successes) ++
      " chunks failed; partial results returned")
  else .completed

/-- `execute_reviewer` from src/runner/executor.rs.  Every per-unit error is
converted into an `Ok(ReviewerResult)` carrying a status; the only
non-result outcome is a panic (`none`).  Wall-clock durations are dropped. -/
def execute_reviewer (config : Config) (reviewer : Reviewer) (env : ExecEnv) :
    Option ReviewerResult :=
  match env.discover with
  | .error e => some ⟨reviewer.id, reviewer.name, .failed e, 0, []⟩
  | .ok files =>
    if files = [] then
      some ⟨reviewer.id, reviewer.name, .skipped "no matching files", 0, []⟩
    else
      match env.promptFile with
      | .error e =>
        some ⟨reviewer.id, reviewer.name,
          .failed ("Failed to read prompt file (" ++ reviewer.prompt_file ++
            "): " ++ e), 0, []⟩
      | .ok _prompt =>
        let max_files := reviewer.max_files.getD config.max_files
        let chunks := chunk_files files max_files
        let total := chunks.length
        let session0 : Option String :=
          if reviewer.provider = .claudeCli ∧ 1 < total then some env.freshUuid
          else none
        match chunkLoop config.retry env total chunks 0
          ⟨[], 0, 0, none, session0, 0⟩ with
        | none => none
        | some st =>
          some ⟨reviewer.id, reviewer.name, chunkStatus st, files.length,
            st.all_findings⟩

/-! ## Review orchestrator (src/runner/orchestrator.rs `Orchestrator::run`)

Execution environments are supplied per reviewer id.  `FuturesUnordered`
collects results in completion order; this deterministic model uses
submission order (claims about the report are stated up to permutation).
A panicked task (`none` from `execute_reviewer`) is logged and dropped,
exactly as the orchestrator's `Err(e) => warn!("Task panicked…")` arm. -/

def filteredReviewers (config : Config) (options : RunOptions) : List Reviewer :=
  ((config.reviewers.filter (·.enabled)).filter (fun r =>
    match options.reviewer_filter with
    | some f => f.contains r.id
    | none => true)).filter (fun r =>
    match options.scope_filter with
    | some f => r.scopes.any f.contains
    | none => true)

/-- The `ReviewerResult` pushed for a unit skipped by the freshness check. -/
def skippedResult (r : Reviewer) : ReviewerResult :=
  ⟨r.id, r.name, .skipped "already ran today", 0, []⟩

/-- One iteration of the loop separating reviewers to run from
already-ran-today skips (src/runner/orchestrator.rs lines 139–158). -/
def freshStep (state : State) (now : Int) (force : Bool)
    (acc : List Reviewer × List ReviewerResult) (r : Reviewer) :
    List Reviewer × List ReviewerResult :=
  if ¬force ∧ state.ran_today now r.id then (acc.1, acc.2 ++ [skippedResult r])
  else (acc.1 ++ [r], acc.2)

def partitionByFreshness (all : List Reviewer) (state : State) (now : Int)
    (force : Bool) : List Reviewer × List ReviewerResult :=
  all.foldl (freshStep state now force) ([], [])

/-- `Orchestrator::run` (src/runner/orchestrator.rs lines 104–236), dropping
report-file writing (a logged-only side effect) and wall-clock durations. -/
def Orchestrator.run (config : Config) (options : RunOptions) (state : State)
    (now : Int) (env : String → ExecEnv) :
    Except RunnerError (List ReviewerResult) :=
  let all := filteredReviewers config options
  let p := partitionByFreshness all state now options.force
  if p.1 = [] ∧ p.2 = [] then .error .noReviewersMatched
  else if p.1 = [] then .ok p.2
  else .ok (p.2 ++ p.1.filterMap (fun r => execute_reviewer config r (env r.id)))

theorem retryResult_isSome {E T : Type} (config : RetryConfig)
    (op : Nat → Except E T) (rand : Nat → Nat)
    (hb : 0 < config.backoff_base_ms) : (retryResult config op rand).isSome := by
  unfold retryResult retry_with_backoff
  have h := retryGo_isSome config.backoff_base_ms op rand hb config.max_attempts 0
    config.backoff_base_ms
  cases hv : retryGo config.backoff_base_ms op rand 0 config.backoff_base_ms
      config.max_attempts with
  | none => rw [hv] at h; simp at h
  | some t => simp

theorem chunkLoop_isSome (rc : RetryConfig) (env : ExecEnv) (total : Nat)
    (hb : 0 < rc.backoff_base_ms) :
    ∀ (l : List (List String)) (idx : Nat) (st : ChunkLoopState),
      (chunkLoop rc env total l idx st).isSome
  | [], _, st => by rw [chunkLoop]; simp
  | c :: rest, idx, st => by
      rw [chunkLoop]
      have hsome := retryResult_isSome rc (env.provider idx) (env.rand idx) hb
      cases h : retryResult rc (env.provider idx) (env.rand idx) with
      | none => rw [h] at hsome; simp at hsome
      | some res =>
          cases res with
          | ok output => exact chunkLoop_isSome rc env total hb rest (idx + 1) _
          | error e =>
              simp only
              split
              · simp
              · exact chunkLoop_isSome rc env total hb rest (idx + 1) _

theorem execute_reviewer_isSome (config : Config) (reviewer : Reviewer)
    (env : ExecEnv) (hb : 0 < config.retry.backoff_base_ms) :
    (execute_reviewer config reviewer env).isSome := by
  unfold execute_reviewer
  cases env.discover with
  | error e => simp
  | ok files =>
      simp only
      split
      · simp
      · cases env.promptFile with
        | error e => simp
        | ok p =>
            simp only
            have h := chunkLoop_isSome config.retry env
              (chunk_files files (reviewer.max_files.getD config.max_files)).length hb
              (chunk_files files (reviewer.max_files.getD config.max_files)) 0
              ⟨[], 0, 0, none,
                if reviewer.provider = .claudeCli ∧
                    1 < (chunk_files files (reviewer.max_files.getD config.max_files)).length
                  then some env.freshUuid else none, 0⟩
            cases hv : chunkLoop config.retry env
                (chunk_files files (reviewer.max_files.getD config.max_files)).length
                (chunk_files files (reviewer.max_files.getD config.max_files)) 0
                ⟨[], 0, 0, none,
                  if reviewer.provider = .claudeCli ∧
                      1 < (chunk_files files (reviewer.max_files.getD config.max_files)).length
                    then some env.freshUuid else none, 0⟩ with
            | none => rw [hv] at h; simp at h
            | some st => simp

theorem execute_reviewer_id (config : Config) (reviewer : Reviewer)
    (env : ExecEnv) (res : ReviewerResult)
    (h : execute_reviewer config reviewer env = some res) :
    res.reviewer_id = reviewer.id := by
  unfold execute_reviewer at h
  cases hd : env.discover with
  | error e => rw [hd] at h; cases h; rfl
  | ok files =>
      rw [hd] at h
      simp only at h
      by_cases hf : files = []
      · rw [if_pos hf] at h; cases h; rfl
      · rw [if_neg hf] at h
        cases hp : env.promptFile with
        | error e => rw [hp] at h; cases h; rfl
        | ok p =>
            rw [hp] at h
            simp only at h
            cases hv : chunkLoop config.retry env
                (chunk_files files (reviewer.max_files.getD config.max_files)).length
                (chunk_files files (reviewer.max_files.getD config.max_files)) 0
                ⟨[], 0, 0, none,
                  if reviewer.provider = .claudeCli ∧
                      1 < (chunk_files files (reviewer.max_files.getD config.max_files)).length
                    then some env.freshUuid else none, 0⟩ with
            | none => rw [hv] at h; cases h
            | some st => rw [hv] at h; cases h; rfl

theorem filterMap_execute_map_id (config : Config) (env : String → ExecEnv)
    (hb : 0 < config.retry.backoff_base_ms) :
    ∀ l : List Reviewer,
      ((l.filterMap (fun r => execute_reviewer config r (env r.id))).map
        (·.reviewer_id)) = l.map (·.id)
  | [] => by simp
  | r :: rest => by
      have hsome := execute_reviewer_isSome config r (env r.id) hb
      cases h : execute_reviewer config r (env r.id) with
      | none => rw [h] at hsome; simp at hsome
      | some res =>
          rw [List.filterMap_cons]
          simp only [h, List.map_cons]
          rw [filterMap_execute_map_id config env hb rest,
            execute_reviewer_id config r (env r.id) res h]

theorem freshFold_perm (state : State) (now : Int) (force : Bool) :
    ∀ (all : List Reviewer) (acc : List Reviewer × List ReviewerResult),
      ((all.foldl (freshStep state now force) acc).1.map (·.id) ++
        (all.foldl (freshStep state now force) acc).2.map (·.reviewer_id)).Perm
        (acc.1.map (·.id) ++ acc.2.map (·.reviewer_id) ++ all.map (·.id))
  | [], acc => by simp
  | r :: rest, acc => by
      rw [List.foldl_cons]
      by_cases hc : ¬force ∧ state.ran_today now r.id
      · have hstep : freshStep state now force acc r =
            (acc.1, acc.2 ++ [skippedResult r]) := by
          unfold freshStep; rw [if_pos hc]
        rw [hstep]
        refine (freshFold_perm state now force rest _).trans ?_
        simp only [List.map_append, List.map_cons, List.map_nil, skippedResult]
        simp only [List.append_assoc, List.singleton_append]
        exact List.Perm.refl _
      · have hstep : freshStep state now force acc r = (acc.1 ++ [r], acc.2) := by
          unfold freshStep; rw [if_neg hc]
        rw [hstep]
        refine (freshFold_perm state now force rest _).trans ?_
        simp only [List.map_append, List.map_cons, List.map_nil]
        simp only [List.append_assoc, List.singleton_append]
        refine List.Perm.append_left _ ?_
        exact List.perm_middle.symm.trans (List.Perm.refl _)

theorem freshFold_acc_mono (state : State) (now : Int) (force : Bool) :
    ∀ (all : List Reviewer) (acc : List Reviewer × List ReviewerResult),
      (∀ x, x ∈ acc.1 → x ∈ (all.foldl (freshStep state now force) acc).1) ∧
      (∀ y, y ∈ acc.2 → y ∈ (all.foldl (freshStep state now force) acc).2)
  | [], acc => by simp
  | r :: rest, acc => by
      rw [List.foldl_cons]
      have ih := freshFold_acc_mono state now force rest (freshStep state now force acc r)
      refine ⟨fun x hx => ih.1 x ?_, fun y hy => ih.2 y ?_⟩
      · unfold freshStep
        split
        · exact hx
        · exact List.mem_append_left _ hx
      · unfold freshStep
        split
        · exact List.mem_append_left _ hy
        · exact hy

theorem freshFold_mem_skip (state : State) (now : Int) (force : Bool)
    (r : Reviewer) (hforce : force = false)
    (hran : State.ran_today state now r.id = true) :
    ∀ (all : List Reviewer) (acc : List Reviewer × List ReviewerResult),
      r ∈ all → skippedResult r ∈ (all.foldl (freshStep state now force) acc).2
  | [], _, hmem => absurd hmem (List.not_mem_nil r)
  | a :: rest, acc, hmem => by
      rw [List.foldl_cons]
      rcases List.mem_cons.mp hmem with heq | hmem'
      · subst heq
        have hstep : freshStep state now force acc r =
            (acc.1, acc.2 ++ [skippedResult r]) := by
          unfold freshStep
          rw [if_pos (by subst hforce; exact ⟨by simp, hran⟩)]
        rw [hstep]
        exact (freshFold_acc_mono state now force rest _).2 _
          (List.mem_append_right _ (List.mem_singleton.mpr rfl))
      · exact freshFold_mem_skip state now force r hforce hran rest _ hmem'

theorem freshFold_mem_run (state : State) (now : Int) (force : Bool)
    (r : Reviewer) (hcond : force = true ∨ State.ran_today state now r.id = false) :
    ∀ (all : List Reviewer) (acc : List Reviewer × List ReviewerResult),
      r ∈ all → r ∈ (all.foldl (freshStep state now force) acc).1
  | [], _, hmem => absurd hmem (List.not_mem_nil r)
  | a :: rest, acc, hmem => by
      rw [List.foldl_cons]
      rcases List.mem_cons.mp hmem with heq | hmem'
      · subst heq
        have hstep : freshStep state now force acc r = (acc.1 ++ [r], acc.2) := by
          unfold freshStep
          rw [if_neg]
          rcases hcond with hf | hr
          · subst hf; simp
          · intro hcontra; rw [hr] at hcontra; exact Bool.false_ne_true hcontra.2
        rw [hstep]
        exact (freshFold_acc_mono state now force rest _).1 _
          (List.mem_append_right _ (List.mem_singleton.mpr rfl))
      · exact freshFold_mem_run state now force r hcond rest _ hmem'

/-- C3: with a positive backoff base (no panics, see C10), whenever any unit
matches the filters, `Orchestrator::run` returns a report containing exactly
one `ReviewerResult` per enabled, filter-matching unit — per-unit discovery,
prompt-read, provider and parse failures are all folded into per-unit
statuses and never abort the run. -/
theorem C3_run_complete_report (config : Config) (options : RunOptions)
    (state : State) (now : Int) (env : String → ExecEnv)
    (hb : 0 < config.retry.backoff_base_ms)
    (hne : filteredReviewers config options ≠ []) :
    ∃ results, Orchestrator.run config options state now env = .ok results ∧
      (results.map (·.reviewer_id)).Perm
        ((filteredReviewers config options).map (·.id)) := by
  have hperm := freshFold_perm state now options.force
    (filteredReviewers config options) ([], [])
  simp only [List.map_nil, List.nil_append] at hperm
  unfold Orchestrator.run partitionByFreshness
  set p := (filteredReviewers config options).foldl
    (freshStep state now options.force) ([], []) with hp
  by_cases hboth : p.1 = [] ∧ p.2 = []
  · exfalso
    rw [hboth.1, hboth.2] at hperm
    simp only [List.map_nil, List.nil_append] at hperm
    exact hne (List.map_eq_nil_iff.mp hperm.symm.eq_nil)
  · rw [if_neg hboth]
    by_cases h1 : p.1 = []
    · rw [if_pos h1]
      refine ⟨p.2, rfl, ?_⟩
      rw [h1] at hperm
      simpa using hperm
    · rw [if_neg h1]
      refine ⟨_, rfl, ?_⟩
      rw [List.map_append, filterMap_execute_map_id config env hb]
      exact (List.perm_append_comm.trans hperm)

/-- Witness for C3: two enabled reviewers, one failing discovery and one
with a single always-failing provider chunk; the run still reports both. -/
theorem C3_run_complete_report_witness :
    (0 : Nat) < 10 ∧
    filteredReviewers
      ⟨⟨3, 10⟩, 5,
        [⟨"rev-a", "A", true, .claudeCli, ["core"], "a.md", .P1, none⟩,
         ⟨"rev-b", "B", true, .codexCli, ["core"], "b.md", .P1, none⟩]⟩
      ⟨none, none, true⟩ ≠ [] ∧
    (∃ results, Orchestrator.run
        ⟨⟨3, 10⟩, 5,
          [⟨"rev-a", "A", true, .claudeCli, ["core"], "a.md", .P1, none⟩,
           ⟨"rev-b", "B", true, .codexCli, ["core"], "b.md", .P1, none⟩]⟩
        ⟨none, none, true⟩ ⟨[]⟩ 0
        (fun rid =>
          if rid = "rev-a" then
            ⟨.error "glob failed", .ok "prompt", fun _ _ => .error "spawn failed",
              fun _ _ => 7, "uuid-a", fun _ => []⟩
          else
            ⟨.ok ["f1.py"], .ok "prompt", fun _ _ => .error "timeout",
              fun _ _ => 7, "uuid-b", fun _ => []⟩) = .ok results ∧
      (results.map (·.reviewer_id)).Perm
        ((filteredReviewers
          ⟨⟨3, 10⟩, 5,
            [⟨"rev-a", "A", true, .claudeCli, ["core"], "a.md", .P1, none⟩,
             ⟨"rev-b", "B", true, .codexCli, ["core"], "b.md", .P1, none⟩]⟩
          ⟨none, none, true⟩).map (·.id))) :=
  ⟨by decide, by decide,
    C3_run_complete_report
      ⟨⟨3, 10⟩, 5,
        [⟨"rev-a", "A", true, .claudeCli, ["core"], "a.md", .P1, none⟩,
         ⟨"rev-b", "B", true, .codexCli, ["core"], "b.md", .P1, none⟩]⟩
      ⟨none, none, true⟩ ⟨[]⟩ 0 _ (by decide) (by decide)⟩

/-- C5: the freshness window.  (a) `State::ran_today` is true iff an entry
exists and `now - last_run < 24h`.  (b) A filter-matching unit that ran less
than 24 hours ago is skipped (`Skipped "already ran today"`) when
`force = false`.  (c) When `force = true`, or when the unit's entry is
missing or 24h or older (`ran_today = false`), the unit is executed and its
execution result appears in the report. -/
theorem C5_freshness_window :
    (∀ (s : State) (now : Int) (id : String),
      State.ran_today s now id = true ↔
        ∃ rs, s.reviewers.lookup id = some rs ∧ now - rs.last_run < 86400000) ∧
    (∀ (config : Config) (options : RunOptions) (state : State) (now : Int)
      (env : String → ExecEnv) (r : Reviewer),
      0 < config.retry.backoff_base_ms →
      r ∈ filteredReviewers config options →
      options.force = false → State.ran_today state now r.id = true →
      ∃ results, Orchestrator.run config options state now env = .ok results ∧
        skippedResult r ∈ results) ∧
    (∀ (config : Config) (options : RunOptions) (state : State) (now : Int)
      (env : String → ExecEnv) (r : Reviewer),
      0 < config.retry.backoff_base_ms →
      r ∈ filteredReviewers config options →
      (options.force = true ∨ State.ran_today state now r.id = false) →
      ∃ results res, Orchestrator.run config options state now env = .ok results ∧
        execute_reviewer config r (env r.id) = some res ∧ res ∈ results) := by
  refine ⟨?_, ?_, ?_⟩
  · intro s now id
    unfold State.ran_today
    cases h : s.reviewers.lookup id with
    | none => simp
    | some rs =>
        simp only [decide_eq_true_eq]
        constructor
        · intro hlt; exact ⟨rs, rfl, hlt⟩
        · rintro ⟨rs', hrs', hlt⟩; cases hrs'; exact hlt
  · intro config options state now env r hb hmem hforce hran
    have hskip := freshFold_mem_skip state now options.force r hforce hran
      (filteredReviewers config options) ([], []) hmem
    unfold Orchestrator.run partitionByFreshness
    set p := (filteredReviewers config options).foldl
      (freshStep state now options.force) ([], []) with hp
    have hne2 : p.2 ≠ [] := by
      intro hnil; rw [hnil] at hskip; exact List.not_mem_nil _ hskip
    rw [if_neg (by intro hboth; exact hne2 hboth.2)]
    by_cases h1 : p.1 = []
    · rw [if_pos h1]
      exact ⟨p.2, rfl, hskip⟩
    · rw [if_neg h1]
      exact ⟨_, rfl, List.mem_append_left _ hskip⟩
  · intro config options state now env r hb hmem hcond
    have hrun := freshFold_mem_run state now options.force r hcond
      (filteredReviewers config options) ([], []) hmem
    unfold Orchestrator.run partitionByFreshness
    set p := (filteredReviewers config options).foldl
      (freshStep state now options.force) ([], []) with hp
    have hne1 : p.1 ≠ [] := by
      intro hnil; rw [hnil] at hrun; exact List.not_mem_nil _ hrun
    rw [if_neg (by intro hboth; exact hne1 hboth.1)]
    rw [if_neg hne1]
    have hsome := execute_reviewer_isSome config r (env r.id) hb
    cases hres : execute_reviewer config r (env r.id) with
    | none => rw [hres] at hsome; simp at hsome
    | some res =>
        refine ⟨_, res, rfl, rfl, ?_⟩
        refine List.mem_append_right _ ?_
        exact List.mem_filterMap.mpr ⟨r, hrun, hres⟩

/-- Witness for C5: one reviewer that ran 2 hours ago (entry at
`now - 7200000` ms): skipped with `force = false`, executed with
`force = true`. -/
theorem C5_freshness_window_witness :
    (State.ran_today ⟨[("rev-a", ⟨-7200000, 3⟩)]⟩ 0 "rev-a" = true ↔
      ∃ rs, (State.mk [("rev-a", ⟨-7200000, 3⟩)]).reviewers.lookup "rev-a" =
        some rs ∧ (0 : Int) - rs.last_run < 86400000) ∧
    (∃ results, Orchestrator.run
        ⟨⟨3, 10⟩, 5, [⟨"rev-a", "A", true, .claudeCli, ["core"], "a.md", .P1, none⟩]⟩
        ⟨none, none, false⟩ ⟨[("rev-a", ⟨-7200000, 3⟩)]⟩ 0
        (fun _ => ⟨.ok ["f1.py"], .ok "prompt", fun _ _ => .error "timeout",
          fun _ _ => 7, "uuid", fun _ => []⟩) = .ok results ∧
      skippedResult ⟨"rev-a", "A", true, .claudeCli, ["core"], "a.md", .P1, none⟩ ∈
        results) ∧
    (∃ results res, Orchestrator.run
        ⟨⟨3, 10⟩, 5, [⟨"rev-a", "A", true, .claudeCli, ["core"], "a.md", .P1, none⟩]⟩
        ⟨none, none, true⟩ ⟨[("rev-a", ⟨-7200000, 3⟩)]⟩ 0
        (fun _ => ⟨.ok ["f1.py"], .ok "prompt", fun _ _ => .error "timeout",
          fun _ _ => 7, "uuid", fun _ => []⟩) = .ok results ∧
      execute_reviewer
        ⟨⟨3, 10⟩, 5, [⟨"rev-a", "A", true, .claudeCli, ["core"], "a.md", .P1, none⟩]⟩
        ⟨"rev-a", "A", true, .claudeCli, ["core"], "a.md", .P1, none⟩
        ⟨.ok ["f1.py"], .ok "prompt", fun _ _ => .error "timeout",
          fun _ _ => 7, "uuid", fun _ => []⟩ = some res ∧ res ∈ results) :=
  ⟨C5_freshness_window.1 ⟨[("rev-a", ⟨-7200000, 3⟩)]⟩ 0 "rev-a",
    C5_freshness_window.2.1
      ⟨⟨3, 10⟩, 5, [⟨"rev-a", "A", true, .claudeCli, ["core"], "a.md", .P1, none⟩]⟩
      ⟨none, none, false⟩ ⟨[("rev-a", ⟨-7200000, 3⟩)]⟩ 0 _
      ⟨"rev-a", "A", true, .claudeCli, ["core"], "a.md", .P1, none⟩
      (by decide) (by decide) rfl (by decide),
    C5_freshness_window.2.2
      ⟨⟨3, 10⟩, 5, [⟨"rev-a", "A", true, .claudeCli, ["core"], "a.md", .P1, none⟩]⟩
      ⟨none, none, true⟩ ⟨[("rev-a", ⟨-7200000, 3⟩)]⟩ 0 _
      ⟨"rev-a", "A", true, .claudeCli, ["core"], "a.md", .P1, none⟩
      (by decide) (by decide) (Or.inl rfl)⟩

theorem chunkLoop_fail_at (rc : RetryConfig) (env : ExecEnv) (total : Nat)
    (e : String) :
    ∀ (k : Nat) (l : List (List String)) (idx : Nat) (st0 : ChunkLoopState),
      idx + l.length = total →
      (∀ i, i < k → ∃ out, retryResult rc (env.provider (idx + i))
        (env.rand (idx + i)) = some (.ok out)) →
      retryResult rc (env.provider (idx + k)) (env.rand (idx + k)) =
        some (.error e) →
      idx + k < total - 1 →
      st0.all_findings = [] → st0.chunk_failures = 0 →
      ∃ st, chunkLoop rc env total l idx st0 = some st ∧
        st.chunks_executed = st0.chunks_executed + (k + 1) ∧
        st.chunk_successes = st0.chunk_successes + k ∧
        st.chunk_failures = 1 ∧
        st.all_findings = [] ∧
        st.last_error = some e
  | 0, l, idx, st0 => by
      intro halign hok hfail hk hfind hfailz
      cases l with
      | nil => simp only [List.length_nil, Nat.add_zero] at halign; omega
      | cons c rest =>
          rw [chunkLoop]
          rw [Nat.add_zero] at hfail
          rw [hfail]
          simp only
          rw [if_pos ⟨by omega, by omega⟩]
          refine ⟨_, rfl, ?_, ?_, ?_, ?_, ?_⟩ <;> simp [hfind, hfailz]
  | k + 1, l, idx, st0 => by
      intro halign hok hfail hk hfind hfailz
      cases l with
      | nil => simp only [List.length_nil, Nat.add_zero] at halign; omega
      | cons c rest =>
          rw [chunkLoop]
          obtain ⟨out, hout⟩ := hok 0 (by omega)
          rw [Nat.add_zero] at hout
          rw [hout]
          simp only
          have hnotlast : ¬ (idx + 1 = total) := by
            simp only [List.length_cons] at halign; omega
          rw [if_neg hnotlast]
          obtain ⟨st, hst, hexec, hsucc, hfails, hfinds, hlast⟩ :=
            chunkLoop_fail_at rc env total e k rest (idx + 1)
              { all_findings := st0.all_findings,
                chunk_successes := st0.chunk_successes + 1,
                chunk_failures := st0.chunk_failures,
                last_error := st0.last_error,
                session_id := match st0.session_id with
                  | none => out.session_id
                  | some sid => some sid,
                chunks_executed := st0.chunks_executed + 1 }
              (by simp only [List.length_cons] at halign; omega)
              (fun i hi => by
                have hidx : idx + 1 + i = idx + (i + 1) := by omega
                rw [hidx]
                exact hok (i + 1) (by omega))
              (by
                have hidx : idx + 1 + k = idx + (k + 1) := by omega
                rw [hidx]
                exact hfail)
              (by omega) (by simpa using hfind) (by simpa using hfailz)
          exact ⟨st, hst, by simp only at hexec; omega,
            by simp only at hsucc; omega, hfails, hfinds, hlast⟩

theorem chunkLoop_failed_empty (rc : RetryConfig) (env : ExecEnv) (total : Nat) :
    ∀ (l : List (List String)) (idx : Nat) (st0 st : ChunkLoopState),
      idx + l.length = total →
      st0.all_findings = [] → st0.chunk_failures = 0 →
      chunkLoop rc env total l idx st0 = some st →
      0 < st.chunk_failures → st.all_findings = []
  | [], idx, st0, st => by
      intro _ hfind hfailz hloop hpos
      rw [chunkLoop] at hloop
      cases hloop
      omega
  | c :: rest, idx, st0, st => by
      intro halign hfind hfailz hloop hpos
      rw [chunkLoop] at hloop
      cases hres : retryResult rc (env.provider idx) (env.rand idx) with
      | none => rw [hres] at hloop; cases hloop
      | some res =>
          rw [hres] at hloop
          cases res with
          | ok output =>
              by_cases hlast : idx + 1 = total
              · have hrest : rest = [] := by
                  simp only [List.length_cons] at halign
                  cases rest with
                  | nil => rfl
                  | cons d ds => simp only [List.length_cons] at halign; omega
                subst hrest
                simp only at hloop
                rw [chunkLoop] at hloop
                cases hloop
                simp at hpos
                omega
              · simp only at hloop
                refine chunkLoop_failed_empty rc env total rest (idx + 1) _ st
                  (by simp only [List.length_cons] at halign; omega) ?_ ?_ hloop hpos
                · simp [if_neg hlast, hfind]
                · simpa using hfailz
          | error e =>
              simp only at hloop
              by_cases hbrk : 1 < total ∧ idx < total - 1
              · rw [if_pos hbrk] at hloop
                cases hloop
                simpa using hfind
              · rw [if_neg hbrk] at hloop
                have hrest : rest = [] := by
                  simp only [List.length_cons] at halign
                  cases rest with
                  | nil => rfl
                  | cons d ds =>
                      exfalso
                      simp only [List.length_cons] at halign
                      exact hbrk ⟨by omega, by omega⟩
                subst hrest
                rw [chunkLoop] at hloop
                cases hloop
                simpa using hfind

/-- C4: chunked execution is fail-fast.  If the chunks of a multi-chunk unit
succeed up to chunk `k` and chunk `k` (before the last) fails after
exhausting retries, exactly `k+1` chunks are executed (the rest abandoned),
the unit's result is `Failed` with the `"… of … chunks failed; partial
results returned"` message when at least one chunk succeeded, and its
findings list is empty.  Generally: partial success (≥1 success and ≥1
failure) always reports `Failed` with that counting message — the same
constructor as total failure, distinguishable only by the message — and any
chunk-loop run with a failure ends with an empty findings list (the final
chunk either failed or was never reached). -/
theorem C4_chunk_fail_fast (config : Config) (reviewer : Reviewer)
    (env : ExecEnv) (files : List String) (chunks : List (List String))
    (total k : Nat) (e : String)
    (hdisc : env.discover = .ok files) (hfne : files ≠ [])
    (hprompt : ∃ p, env.promptFile = .ok p)
    (hchunks : chunk_files files (reviewer.max_files.getD config.max_files) = chunks)
    (htotal : chunks.length = total)
    (hok : ∀ i, i < k → ∃ out, retryResult config.retry (env.provider i)
      (env.rand i) = some (.ok out))
    (hfail : retryResult config.retry (env.provider k) (env.rand k) =
      some (.error e))
    (hk : k < total - 1) :
    (∃ st, chunkLoop config.retry env total chunks 0
        ⟨[], 0, 0, none,
          if reviewer.provider = .claudeCli ∧ 1 < total then some env.freshUuid
          else none, 0⟩ = some st ∧
      st.chunks_executed = k + 1 ∧ st.chunk_successes = k ∧
      st.chunk_failures = 1 ∧ st.all_findings = [] ∧ st.last_error = some e ∧
      execute_reviewer config reviewer env =
        some ⟨reviewer.id, reviewer.name, chunkStatus st, files.length, []⟩ ∧
      (0 < k → chunkStatus st =
        .failed ("1 of " ++ toString (1 + k) ++
          " chunks failed; partial results returned"))) ∧
    (∀ st : ChunkLoopState, 0 < st.chunk_successes → 0 < st.chunk_failures →
      chunkStatus st = .failed (toString st.chunk_failures ++ " of " ++
        toString (st.chunk_failures + st.chunk_successes) ++
        " chunks failed; partial results returned")) ∧
    (∀ (rc : RetryConfig) (env' : ExecEnv) (l : List (List String))
      (sess : Option String) (st : ChunkLoopState),
      chunkLoop rc env' l.length l 0 ⟨[], 0, 0, none, sess, 0⟩ = some st →
      0 < st.chunk_failures → st.all_findings = []) := by
  subst hchunks htotal
  refine ⟨?_, ?_, ?_⟩
  · obtain ⟨st, hst, hexec, hsucc, hfails, hfinds, hlast⟩ :=
      chunkLoop_fail_at config.retry env
        (chunk_files files (reviewer.max_files.getD config.max_files)).length e k
        (chunk_files files (reviewer.max_files.getD config.max_files)) 0
        ⟨[], 0, 0, none,
          if reviewer.provider = .claudeCli ∧
              1 < (chunk_files files (reviewer.max_files.getD config.max_files)).length
            then some env.freshUuid else none, 0⟩
        (by omega) (fun i hi => by simpa using hok i hi) (by simpa using hfail)
        (by omega) rfl rfl
    refine ⟨st, hst, by simpa using hexec, by simpa using hsucc, hfails, hfinds,
      hlast, ?_, ?_⟩
    · obtain ⟨p, hp⟩ := hprompt
      unfold execute_reviewer
      rw [hdisc]
      simp only
      rw [if_neg hfne, hp]
      simp only
      rw [hst]
      simp only
      rw [hfinds]
    · intro hkpos
      unfold chunkStatus
      rw [hfails]
      have hsucck : st.chunk_successes = k := by simpa using hsucc
      rw [hsucck]
      rw [if_neg (by omega), if_pos (by omega)]
      have hone : (toString (1 : Nat) ++ " of " : String) = "1 of " := by decide
      rw [hone]
  · intro st hsucc hfails
    unfold chunkStatus
    rw [if_neg (by omega), if_pos (by omega)]
  · intro rc env' l sess st hloop hpos
    exact chunkLoop_failed_empty rc env' l.length l 0 _ st (by omega) rfl rfl
      hloop hpos

/-- Witness for C4: 5 files in chunks of 2 (3 chunks); chunk 0 succeeds,
chunk 1 fails on every retry attempt, chunk 2 is never executed. -/
theorem C4_chunk_fail_fast_witness :
    (∃ st, chunkLoop (RetryConfig.mk 3 10)
        ⟨.ok ["f1", "f2", "f3", "f4", "f5"], .ok "prompt",
          fun c _ => if c = 0 then .ok ⟨"ack", none⟩ else .error "timeout",
          fun _ _ => 7, "uuid", fun _ => []⟩ 3
        (chunk_files ["f1", "f2", "f3", "f4", "f5"] 2) 0
        ⟨[], 0, 0, none, some "uuid", 0⟩ = some st ∧
      st.chunks_executed = 1 + 1 ∧ st.chunk_successes = 1 ∧
      st.chunk_failures = 1 ∧ st.all_findings = [] ∧
      st.last_error = some "timeout" ∧
      execute_reviewer
        ⟨⟨3, 10⟩, 5, [⟨"rev-a", "A", true, .claudeCli, ["core"], "a.md", .P1, some 2⟩]⟩
        ⟨"rev-a", "A", true, .claudeCli, ["core"], "a.md", .P1, some 2⟩
        ⟨.ok ["f1", "f2", "f3", "f4", "f5"], .ok "prompt",
          fun c _ => if c = 0 then .ok ⟨"ack", none⟩ else .error "timeout",
          fun _ _ => 7, "uuid", fun _ => []⟩ =
        some ⟨"rev-a", "A", chunkStatus st, 5, []⟩ ∧
      (0 < 1 → chunkStatus st =
        .failed ("1 of " ++ toString (1 + 1) ++
          " chunks failed; partial results returned"))) := by
  have hlen : (chunk_files ["f1", "f2", "f3", "f4", "f5"] 2).length = 3 := by
    simp [chunk_files, chunksOf]
  have h := (C4_chunk_fail_fast
    ⟨⟨3, 10⟩, 5, [⟨"rev-a", "A", true, .claudeCli, ["core"], "a.md", .P1, some 2⟩]⟩
    ⟨"rev-a", "A", true, .claudeCli, ["core"], "a.md", .P1, some 2⟩
    ⟨.ok ["f1", "f2", "f3", "f4", "f5"], .ok "prompt",
      fun c _ => if c = 0 then .ok ⟨"ack", none⟩ else .error "timeout",
      fun _ _ => 7, "uuid", fun _ => []⟩
    ["f1", "f2", "f3", "f4", "f5"] (chunk_files ["f1", "f2", "f3", "f4", "f5"] 2)
    3 1 "timeout" rfl (by decide) ⟨"prompt", rfl⟩ rfl hlen
    (fun i hi => ⟨⟨"ack", none⟩, by
      have hi0 : i = 0 := by omega
      subst hi0
      rfl⟩)
    rfl (by decide)).1
  simpa using h

/-! ## Unified plans and plan revision (src/planner/types.rs,
src/planner/reducer.rs)

`PathBuf` file entries are modelled as strings.  The YAML/JSON
deserialization performed by serde is an external collaborator; the
modelled function `parse_revision_core` covers `parse_revision_yaml`
(src/planner/reducer.rs lines 403–493) from the already-deserialized
`RevisionOutput` onward: the empty-task guard, the first pass assigning
each revised task an id (the id of the first original task with the same
title, else a freshly minted `impl-{n:03}`) while building the
title→id map (`HashMap::insert`: the last insertion for a title wins),
and the second pass converting tasks and resolving `depends_on`. -/

inductive TaskPriority where
  | normal
  | high
  | critical
deriving DecidableEq, Repr

inductive Severity where
  | low
  | medium
  | high
deriving DecidableEq, Repr

structure TaskFiles where
  target : List String
  context : List String
deriving DecidableEq, Repr

structure AcceptanceCriterion where
  criterion : String
  verification : String
deriving DecidableEq, Repr

structure UnifiedTask where
  id : String
  title : String
  description : String
  files : TaskFiles
  depends_on : List String
  acceptance_criteria : List AcceptanceCriterion
  perspectives : List String
  workflow : Option String
  priority : TaskPriority
deriving DecidableEq, Repr

structure UnifiedQuestion where
  question : String
  context : String
  raised_by : List String
  options : List String
  blocks : List String
  answer : Option String
deriving DecidableEq, Repr

structure Risk where
  description : String
  raised_by : List String
  severity : Severity
  mitigation : Option String
deriving DecidableEq, Repr

structure DeferredTask where
  title : String
  rationale : String
deriving DecidableEq, Repr

structure UnifiedPlan where
  tasks : List UnifiedTask
  questions : List UnifiedQuestion
  risks : List Risk
  deferred : List DeferredTask
  summary : Option String
deriving DecidableEq, Repr

/-- `RevisedTask`: the simplified YAML task format of the revision output. -/
structure RevisedTask where
  title : String
  description : String
  acceptance_criteria : List String
  files : List String
  depends_on : List String
deriving DecidableEq, Repr

structure RevisionOutput where
  tasks : List RevisedTask
  revision_summary : Option String
deriving DecidableEq, Repr

inductive PlannerError where
  | parseOutput (msg : String)
deriving DecidableEq, Repr

/-- `format!("impl-{:03}", n)`: decimal, zero-padded to width 3. -/
def pad3 (n : Nat) : String :=
  let s := toString n
  String.mk (List.replicate (3 - s.length) (Char.ofNat 48)) ++ s

/-- The id assigned to the revised task at 0-based position `i`: the id of
the first original task with the same title, else `impl-{i+1:03}`. -/
def revisedTaskId (original : UnifiedPlan) (t : RevisedTask) (i : Nat) : String :=
  match original.tasks.find? (fun ot => ot.title == t.title) with
  | some original_task => original_task.id
  | none => "impl-" ++ pad3 (i + 1)

/-- The title→id map after the first pass (`HashMap<String, String>` as a
lookup function; `insert` overwrites, so the last task with a given title
wins — built by folding over the enumerated revised tasks). -/
def titleToId (original : UnifiedPlan) (tasks : List RevisedTask) :
    String → Option String :=
  (tasks.enum.foldl (fun m it =>
    fun s => if s = it.2.title then some (revisedTaskId original it.2 it.1) else m s)
    (fun _ => none))

/-- The `depends_on` resolution of the second pass: ids (`impl-` prefixed)
pass through verbatim, otherwise titles resolve through the map, falling
back to the literal string. -/
def resolveDep (m : String → Option String) (dep : String) : String :=
  if dep.startsWith "impl-" then dep
  else
    match m dep with
    | some id => id
    | none => dep

/-- The second-pass conversion of one revised task. -/
def convertRevisedTask (original : UnifiedPlan) (m : String → Option String)
    (t : RevisedTask) (id : String) : UnifiedTask :=
  let original_task := original.tasks.find? (fun ot => ot.title == t.title)
  { id := id,
    title := t.title,
    description := t.description,
    files :=
      { target := t.files,
        context := (original_task.map (fun ot => ot.files.context)).getD [] },
    depends_on := t.depends_on.map (resolveDep m),
    acceptance_criteria := t.acceptance_criteria.map (fun c => ⟨c, ""⟩),
    perspectives := (original_task.map (fun ot => ot.perspectives)).getD [],
    workflow := original_task.bind (fun ot => ot.workflow),
    priority := (original_task.map (fun ot => ot.priority)).getD .normal }

/-- `parse_revision_yaml` from the deserialized `RevisionOutput` onward
(src/planner/reducer.rs lines 413–492). -/
def parse_revision_core (revision : RevisionOutput) (original : UnifiedPlan) :
    Except PlannerError UnifiedPlan :=
  if revision.tasks = [] then
    .error (.parseOutput "Revision produced no tasks")
  else
    let m := titleToId original revision.tasks
    let tasks := revision.tasks.enum.map (fun it =>
      convertRevisedTask original m it.2 (revisedTaskId original it.2 it.1))
    .ok
      { tasks := tasks,
        questions := original.questions,
        risks := original.risks,
        deferred := original.deferred,
        summary := revision.revision_summary.or original.summary }

/-- C9: plan revision preserves task identity by title.  When the revision
output is nonempty, `parse_revision_yaml` succeeds and assigns ids
positionally: a revised task whose title exactly equals the title of an
original task keeps that original task's id (regardless of any changes to
description, acceptance criteria or files — only the title is compared);
a revised task matching no original title receives the freshly minted id
`impl-{i+1:03}` for its 0-based position `i`. -/
theorem C9_revision_id_stability (revision : RevisionOutput)
    (original : UnifiedPlan) (hne : revision.tasks ≠ []) :
    ∃ plan, parse_revision_core revision original = .ok plan ∧
      plan.tasks.length = revision.tasks.length ∧
      ∀ i, i < revision.tasks.length →
        ∃ rt pt, revision.tasks.get? i = some rt ∧ plan.tasks.get? i = some pt ∧
          pt.id = revisedTaskId original rt i ∧
          ((∃ ot ∈ original.tasks, ot.title = rt.title) →
            ∃ ot ∈ original.tasks, ot.title = rt.title ∧ pt.id = ot.id) ∧
          ((∀ ot ∈ original.tasks, ot.title ≠ rt.title) →
            pt.id = "impl-" ++ pad3 (i + 1)) := by
  unfold parse_revision_core
  rw [if_neg hne]
  refine ⟨_, rfl, ?_, ?_⟩
  · simp [List.enum_length]
  · intro i hi
    have hget : ∃ rt, revision.tasks.get? i = some rt := by
      rw [List.get?_eq_getElem?]
      exact ⟨revision.tasks[i], by simp⟩
    obtain ⟨rt, hrt⟩ := hget
    refine ⟨rt, convertRevisedTask original (titleToId original revision.tasks) rt
      (revisedTaskId original rt i), hrt, ?_, ?_, ?_, ?_⟩
    · rw [List.get?_eq_getElem?]
      rw [List.get?_eq_getElem?] at hrt
      simp only [List.getElem?_map]
      have henum : revision.tasks.enum[i]? = some (i, rt) := by
        rw [List.getElem?_enum, hrt]; rfl
      rw [henum]
      rfl
    · simp [convertRevisedTask]
    · intro hex
      have hfind : (original.tasks.find? (fun ot => ot.title == rt.title)).isSome := by
        rw [List.find?_isSome]
        obtain ⟨ot, hmem, hteq⟩ := hex
        exact ⟨ot, hmem, by simp [hteq]⟩
      cases hf : original.tasks.find? (fun ot => ot.title == rt.title) with
      | none => rw [hf] at hfind; simp at hfind
      | some ot' =>
          refine ⟨ot', List.mem_of_find?_eq_some hf, ?_, ?_⟩
          · have := List.find?_some hf
            simpa using this
          · simp [convertRevisedTask, revisedTaskId, hf]
    · intro hall
      have hfind : original.tasks.find? (fun ot => ot.title == rt.title) = none := by
        rw [List.find?_eq_none]
        intro ot hmem
        simp only [beq_iff_eq]
        exact hall ot hmem
      simp [convertRevisedTask, revisedTaskId, hfind]

/-- Witness for C9: the original plan has tasks `impl-001` ("Add config")
and `impl-007` ("Add auth"); the revision keeps both titles with changed
descriptions and adds a new one.  The kept titles keep `impl-001` and
`impl-007`; the new task at position 2 is minted `impl-003`. -/
theorem C9_revision_id_stability_witness :
    ∃ plan, parse_revision_core
      ⟨[⟨"Add config", "new words", [], [], []⟩,
        ⟨"Add auth", "other words", ["ac1"], ["auth.rs"], []⟩,
        ⟨"Brand new task", "fresh", [], [], []⟩], none⟩
      ⟨[⟨"impl-001", "Add config", "old", ⟨[], []⟩, [], [], ["arch"], none, .normal⟩,
        ⟨"impl-007", "Add auth", "old", ⟨[], []⟩, [], [], [], none, .high⟩],
        [], [], [], some "orig summary"⟩ = .ok plan ∧
      plan.tasks.length = 3 ∧
      ∀ i, i < 3 →
        ∃ rt pt,
          ([⟨"Add config", "new words", [], [], []⟩,
            ⟨"Add auth", "other words", ["ac1"], ["auth.rs"], []⟩,
            ⟨"Brand new task", "fresh", [], [], []⟩] :
              List RevisedTask).get? i = some rt ∧
          plan.tasks.get? i = some pt ∧
          pt.id = revisedTaskId
            ⟨[⟨"impl-001", "Add config", "old", ⟨[], []⟩, [], [], ["arch"], none, .normal⟩,
              ⟨"impl-007", "Add auth", "old", ⟨[], []⟩, [], [], [], none, .high⟩],
              [], [], [], some "orig summary"⟩ rt i ∧
          ((∃ ot ∈ ([⟨"impl-001", "Add config", "old", ⟨[], []⟩, [], [], ["arch"], none, .normal⟩,
              ⟨"impl-007", "Add auth", "old", ⟨[], []⟩, [], [], [], none, .high⟩] :
                List UnifiedTask), ot.title = rt.title) →
            ∃ ot ∈ ([⟨"impl-001", "Add config", "old", ⟨[], []⟩, [], [], ["arch"], none, .normal⟩,
              ⟨"impl-007", "Add auth", "old", ⟨[], []⟩, [], [], [], none, .high⟩] :
                List UnifiedTask), ot.title = rt.title ∧ pt.id = ot.id) ∧
          ((∀ ot ∈ ([⟨"impl-001", "Add config", "old", ⟨[], []⟩, [], [], ["arch"], none, .normal⟩,
              ⟨"impl-007", "Add auth", "old", ⟨[], []⟩, [], [], [], none, .high⟩] :
                List UnifiedTask), ot.title ≠ rt.title) →
            pt.id = "impl-" ++ pad3 (i + 1)) := by
  have h := C9_revision_id_stability
    ⟨[⟨"Add config", "new words", [], [], []⟩,
      ⟨"Add auth", "other words", ["ac1"], ["auth.rs"], []⟩,
      ⟨"Brand new task", "fresh", [], [], []⟩], none⟩
    ⟨[⟨"impl-001", "Add config", "old", ⟨[], []⟩, [], [], ["arch"], none, .normal⟩,
      ⟨"impl-007", "Add auth", "old", ⟨[], []⟩, [], [], [], none, .high⟩],
      [], [], [], some "orig summary"⟩
    (by decide)
  simpa using h

/-! ## SHA-256 (the `sha2` crate's `Sha256::digest`, FIPS 180-4)

Bytes are `Nat` values < 256, 32-bit words `Nat` values < 2^32 with
explicit `% 2^32` where overflow matters.  All recursion is structural so
the kernel can evaluate digests (validated below against the FIPS test
vectors for `""` and `"abc"`). -/

def w32 (x : Nat) : Nat := x % 4294967296

def rotr32 (n x : Nat) : Nat := ((x >>> n) ||| (x <<< (32 - n))) % 4294967296

def ch32 (x y z : Nat) : Nat := (x &&& y) ^^^ ((x ^^^ 4294967295) &&& z)

def maj32 (x y z : Nat) : Nat := (x &&& y) ^^^ (x &&& z) ^^^ (y &&& z)

def bsig0 (x : Nat) : Nat := rotr32 2 x ^^^ rotr32 13 x ^^^ rotr32 22 x

def bsig1 (x : Nat) : Nat := rotr32 6 x ^^^ rotr32 11 x ^^^ rotr32 25 x

def ssig0 (x : Nat) : Nat := rotr32 7 x ^^^ rotr32 18 x ^^^ (x >>> 3)

def ssig1 (x : Nat) : Nat := rotr32 17 x ^^^ rotr32 19 x ^^^ (x >>> 10)

def shaK : List Nat :=
  [1116352408, 1899447441, 3049323471, 3921009573,
   961987163, 1508970993, 2453635748, 2870763221,
   3624381080, 310598401, 607225278, 1426881987,
   1925078388, 2162078206, 2614888103, 3248222580,
   3835390401, 4022224774, 264347078, 604807628,
   770255983, 1249150122, 1555081692, 1996064986,
   2554220882, 2821834349, 2952996808, 3210313671,
   3336571891, 3584528711, 113926993, 338241895,
   666307205, 773529912, 1294757372, 1396182291,
   1695183700, 1986661051, 2177026350, 2456956037,
   2730485921, 2820302411, 3259730800, 3345764771,
   3516065817, 3600352804, 4094571909, 275423344,
   430227734, 506948616, 659060556, 883997877,
   958139571, 1322822218, 1537002063, 1747873779,
   1955562222, 2024104815, 2227730452, 2361852424,
   2428436474, 2756734187, 3204031479, 3329325298]

structure Sha256State where
  h0 : Nat
  h1 : Nat
  h2 : Nat
  h3 : Nat
  h4 : Nat
  h5 : Nat
  h6 : Nat
  h7 : Nat

structure ShaRegs where
  a : Nat
  b : Nat
  c : Nat
  d : Nat
  e : Nat
  f : Nat
  g : Nat
  h : Nat

def shaInit : Sha256State :=
  ⟨1779033703, 3144134277, 1013904242, 2773480762,
   1359893119, 2600822924, 528734635, 1541459225⟩

/-- Big-endian 4-byte groups to 32-bit words. -/
def toWords : List Nat → List Nat
  | b0 :: b1 :: b2 :: b3 :: rest =>
      (b0 * 16777216 + b1 * 65536 + b2 * 256 + b3) :: toWords rest
  | _ => []

/-- Extend the 16 message-schedule words to 64 (48 extension steps). -/
def extendSchedule : Nat → List Nat → List Nat
  | 0, w => w
  | n + 1, w =>
      let len := w.length
      let nw := w32 (ssig1 (w.getD (len - 2) 0) + w.getD (len - 7) 0 +
        ssig0 (w.getD (len - 15) 0) + w.getD (len - 16) 0)
      extendSchedule n (w ++ [nw])

def shaRound (r : ShaRegs) (wk : Nat × Nat) : ShaRegs :=
  let t1 := w32 (r.h + bsig1 r.e + ch32 r.e r.f r.g + wk.2 + wk.1)
  let t2 := w32 (bsig0 r.a + maj32 r.a r.b r.c)
  ⟨w32 (t1 + t2), r.a, r.b, r.c, w32 (r.d + t1), r.e, r.f, r.g⟩

def compress (s : Sha256State) (block : List Nat) : Sha256State :=
  let ws := extendSchedule 48 (toWords block)
  let rf := (ws.zip shaK).foldl shaRound ⟨s.h0, s.h1, s.h2, s.h3, s.h4, s.h5, s.h6, s.h7⟩
  ⟨w32 (s.h0 + rf.a), w32 (s.h1 + rf.b), w32 (s.h2 + rf.c), w32 (s.h3 + rf.d),
   w32 (s.h4 + rf.e), w32 (s.h5 + rf.f), w32 (s.h6 + rf.g), w32 (s.h7 + rf.h)⟩

/-- Append the `0x80` marker, zero padding to 56 mod 64, and the 64-bit
big-endian bit length. -/
def padMessage (msg : List Nat) : List Nat :=
  let len := msg.length
  let bitLen := 8 * len
  msg ++ [128] ++ List.replicate ((119 - len % 64) % 64) 0 ++
    [bitLen / 72057594037927936 % 256, bitLen / 281474976710656 % 256,
     bitLen / 1099511627776 % 256, bitLen / 4294967296 % 256,
     bitLen / 16777216 % 256, bitLen / 65536 % 256,
     bitLen / 256 % 256, bitLen % 256]

/-- Process `n` 64-byte blocks (fuel = number of blocks, which makes the
recursion structural and kernel-evaluable). -/
def processBlocks : Nat → Sha256State → List Nat → Sha256State
  | 0, s, _ => s
  | n + 1, s, bytes => processBlocks n (compress s (bytes.take 64)) (bytes.drop 64)

def sha256Words (msg : List Nat) : Sha256State :=
  let padded := padMessage msg
  processBlocks (padded.length / 64) shaInit padded

def wordBytes (w : Nat) : List Nat :=
  [w / 16777216 % 256, w / 65536 % 256, w / 256 % 256, w % 256]

/-- The 32-byte SHA-256 digest. -/
def sha256 (msg : List Nat) : List Nat :=
  let s := sha256Words msg
  wordBytes s.h0 ++ wordBytes s.h1 ++ wordBytes s.h2 ++ wordBytes s.h3 ++
    wordBytes s.h4 ++ wordBytes s.h5 ++ wordBytes s.h6 ++ wordBytes s.h7

/-- UTF-8 encoding of one scalar value. -/
def utf8Char (c : Char) : List Nat :=
  let n := c.toNat
  if n < 128 then [n]
  else if n < 2048 then [192 + n / 64, 128 + n % 64]
  else if n < 65536 then [224 + n / 4096, 128 + n / 64 % 64, 128 + n % 64]
  else [240 + n / 262144, 128 + n / 4096 % 64, 128 + n / 64 % 64, 128 + n % 64]

def utf8Bytes (s : String) : List Nat := s.data.flatMap utf8Char

/-- FIPS 180-4 test vector: SHA-256 of the empty message. -/
theorem sha256_empty_vector :
    sha256 (utf8Bytes "") =
      [227, 176, 196, 66, 152, 252, 28, 20,
       154, 251, 244, 200, 153, 111, 185, 36,
       39, 174, 65, 228, 100, 155, 147, 76,
       164, 149, 153, 27, 120, 82, 184, 85] := by decide

/-- FIPS 180-4 test vector: SHA-256 of `"abc"`. -/
theorem sha256_abc_vector :
    sha256 (utf8Bytes "abc") =
      [186, 120, 22, 191, 143, 1, 207, 234,
       65, 65, 64, 222, 93, 174, 34, 35,
       176, 3, 97, 163, 150, 23, 122, 156,
       180, 16, 255, 97, 242, 0, 21, 173] := by decide

/-! ## Fingerprints (src/parser/finding.rs `Finding::normalize_snippet`,
`Finding::fingerprint`) -/

/-- `str::split_whitespace`: maximal runs of non-whitespace characters. -/
def wsSplitAux : List Char → List Char → List (List Char)
  | [], acc => if acc = [] then [] else [acc.reverse]
  | c :: rest, acc =>
      if rustIsWhitespace c then
        if acc = [] then wsSplitAux rest []
        else acc.reverse :: wsSplitAux rest []
      else wsSplitAux rest (c :: acc)

def splitWhitespace (s : String) : List String :=
  (wsSplitAux s.data []).map String.mk

/-- `Vec::join(" ")`. -/
def joinSpace : List String → String
  | [] => ""
  | [w] => w
  | w :: rest => w ++ " " ++ joinSpace rest

/-- `Finding::normalize_snippet`: collapse every whitespace run of the
(possibly absent) snippet to a single space. -/
def Finding.normalize_snippet (f : Finding) : String :=
  joinSpace (splitWhitespace (f.snippet.getD ""))

/-- The hash input `reviewer_id|file|line|finding_type|normalized_snippet`. -/
def fingerprintInput (f : Finding) (reviewer_id : String) : String :=
  reviewer_id ++ "|" ++ f.file ++ "|" ++ toString f.line ++ "|" ++
    f.finding_type ++ "|" ++ Finding.normalize_snippet f

def hexDigitChar (n : Nat) : Char :=
  Char.ofNat (if n < 10 then 48 + n else 87 + n)

/-- Lowercase hex of one byte, as `format!("{:x}", …)` renders it. -/
def byteHexChars (b : Nat) : List Char :=
  [hexDigitChar (b / 16), hexDigitChar (b % 16)]

/-- `Finding::fingerprint`: first 12 hex chars of the SHA-256 of the
UTF-8 bytes of the hash input. -/
def Finding.fingerprint (f : Finding) (reviewer_id : String) : String :=
  String.mk
    (((sha256 (utf8Bytes (fingerprintInput f reviewer_id))).flatMap
      byteHexChars).take 12)

/-- The first 6 digest bytes as one number (< 2^48): exactly the
information the 12 hex chars of a fingerprint carry. -/
def fingerprint48 (f : Finding) (reviewer_id : String) : Nat :=
  (sha256 (utf8Bytes (fingerprintInput f reviewer_id))).getD 0 0 * 1099511627776 +
    (sha256 (utf8Bytes (fingerprintInput f reviewer_id))).getD 1 0 * 4294967296 +
    (sha256 (utf8Bytes (fingerprintInput f reviewer_id))).getD 2 0 * 16777216 +
    (sha256 (utf8Bytes (fingerprintInput f reviewer_id))).getD 3 0 * 65536 +
    (sha256 (utf8Bytes (fingerprintInput f reviewer_id))).getD 4 0 * 256 +
    (sha256 (utf8Bytes (fingerprintInput f reviewer_id))).getD 5 0

/-- Rendering of a 48-bit value as 12 lowercase hex chars. -/
def hex12 (v : Nat) : String :=
  String.mk
    (byteHexChars (v / 1099511627776 % 256) ++ byteHexChars (v / 4294967296 % 256) ++
     byteHexChars (v / 16777216 % 256) ++ byteHexChars (v / 65536 % 256) ++
     byteHexChars (v / 256 % 256) ++ byteHexChars (v % 256))

theorem sha256_getD_lt (msg : List Nat) :
    (sha256 msg).getD 0 0 < 256 ∧ (sha256 msg).getD 1 0 < 256 ∧
    (sha256 msg).getD 2 0 < 256 ∧ (sha256 msg).getD 3 0 < 256 ∧
    (sha256 msg).getD 4 0 < 256 ∧ (sha256 msg).getD 5 0 < 256 := by
  refine ⟨?_, ?_, ?_, ?_, ?_, ?_⟩ <;>
    exact Nat.mod_lt _ (by omega)

theorem fingerprint48_lt (f : Finding) (reviewer_id : String) :
    fingerprint48 f reviewer_id < 281474976710656 := by
  obtain ⟨h0, h1, h2, h3, h4, h5⟩ :=
    sha256_getD_lt (utf8Bytes (fingerprintInput f reviewer_id))
  unfold fingerprint48
  omega

/-- A fingerprint is the hex rendering of its 48-bit value. -/
theorem fingerprint_eq_hex12 (f : Finding) (reviewer_id : String) :
    Finding.fingerprint f reviewer_id = hex12 (fingerprint48 f reviewer_id) := by
  obtain ⟨h0, h1, h2, h3, h4, h5⟩ :=
    sha256_getD_lt (utf8Bytes (fingerprintInput f reviewer_id))
  have hfp : Finding.fingerprint f reviewer_id =
      String.mk
        (byteHexChars ((sha256 (utf8Bytes (fingerprintInput f reviewer_id))).getD 0 0) ++
         byteHexChars ((sha256 (utf8Bytes (fingerprintInput f reviewer_id))).getD 1 0) ++
         byteHexChars ((sha256 (utf8Bytes (fingerprintInput f reviewer_id))).getD 2 0) ++
         byteHexChars ((sha256 (utf8Bytes (fingerprintInput f reviewer_id))).getD 3 0) ++
         byteHexChars ((sha256 (utf8Bytes (fingerprintInput f reviewer_id))).getD 4 0) ++
         byteHexChars ((sha256 (utf8Bytes (fingerprintInput f reviewer_id))).getD 5 0)) := rfl
  rw [hfp]
  unfold hex12
  congr 1
  have e0 : fingerprint48 f reviewer_id / 1099511627776 % 256 =
      (sha256 (utf8Bytes (fingerprintInput f reviewer_id))).getD 0 0 := by
    unfold fingerprint48; omega
  have e1 : fingerprint48 f reviewer_id / 4294967296 % 256 =
      (sha256 (utf8Bytes (fingerprintInput f reviewer_id))).getD 1 0 := by
    unfold fingerprint48; omega
  have e2 : fingerprint48 f reviewer_id / 16777216 % 256 =
      (sha256 (utf8Bytes (fingerprintInput f reviewer_id))).getD 2 0 := by
    unfold fingerprint48; omega
  have e3 : fingerprint48 f reviewer_id / 65536 % 256 =
      (sha256 (utf8Bytes (fingerprintInput f reviewer_id))).getD 3 0 := by
    unfold fingerprint48; omega
  have e4 : fingerprint48 f reviewer_id / 256 % 256 =
      (sha256 (utf8Bytes (fingerprintInput f reviewer_id))).getD 4 0 := by
    unfold fingerprint48; omega
  have e5 : fingerprint48 f reviewer_id % 256 =
      (sha256 (utf8Bytes (fingerprintInput f reviewer_id))).getD 5 0 := by
    unfold fingerprint48; omega
  rw [e0, e1, e2, e3, e4, e5]

/-- The finding of the repository's own fingerprint tests. -/
def cexFinding : Finding :=
  ⟨"TEST-001", "sql-injection", "SQL Injection", .P0, "src/db.py", 42, none,
    "Bad", "Fix it", [], []⟩

theorem string_infinite : Infinite String := by
  apply Infinite.of_injective (fun n : Nat => String.mk (List.replicate n 'a'))
  intro m n h
  have hdata : List.replicate m 'a' = List.replicate n 'a' := congrArg String.data h
  have := congrArg List.length hdata
  simpa using this

/-- C1 counterexample: the claim's last conjunct — "for the same finding
content, different reviewer ids yield different fingerprints" — is false as
a universal statement: a fingerprint keeps only 48 bits of the hash, so the
map `reviewer_id ↦ fingerprint` from the infinite type of reviewer-id
strings into the 2^48 possible fingerprints cannot be injective. -/
theorem C1_fingerprint_counterexample :
    ¬ (∀ (f : Finding) (r₁ r₂ : String), r₁ ≠ r₂ →
        Finding.fingerprint f r₁ ≠ Finding.fingerprint f r₂) := by
  intro hclaim
  have : Infinite String := string_infinite
  obtain ⟨r₁, r₂, hne, heq⟩ :=
    Finite.exists_ne_map_eq_of_infinite
      (fun r : String =>
        (⟨fingerprint48 cexFinding r, fingerprint48_lt cexFinding r⟩ :
          Fin 281474976710656))
  apply hclaim cexFinding r₁ r₂ hne
  rw [fingerprint_eq_hex12, fingerprint_eq_hex12]
  exact congrArg hex12 (congrArg Fin.val heq)

/-- C1 (amended): `fingerprint` is the first 12 lowercase hex chars of the
SHA-256 of `reviewer_id|file|line|finding_type|normalized_snippet` (absent
snippet = empty, whitespace runs collapsed to single spaces); it is
deterministic; findings differing only by snippet whitespace (equal
normalized snippets) have equal fingerprints, in particular the repository
test's `"  foo   bar\n  baz  "` normalizes to `"foo bar baz"`; and distinct
reviewer ids always produce distinct *hash inputs* (so fingerprints differ
whenever the truncated hashes do, as with the repository test's pair
`security-python` / `security-swift`), though not always distinct
fingerprints (see the counterexample). -/
theorem C1_fingerprint_spec :
    (∀ (f : Finding) (r : String),
      Finding.fingerprint f r =
        String.mk (((sha256 (utf8Bytes (fingerprintInput f r))).flatMap
          byteHexChars).take 12)) ∧
    (∀ (f : Finding) (r : String),
      Finding.fingerprint f r = Finding.fingerprint f r) ∧
    (∀ (f₁ f₂ : Finding) (r : String),
      f₁.file = f₂.file → f₁.line = f₂.line →
      f₁.finding_type = f₂.finding_type →
      Finding.normalize_snippet f₁ = Finding.normalize_snippet f₂ →
      Finding.fingerprint f₁ r = Finding.fingerprint f₂ r) ∧
    (Finding.normalize_snippet
        { cexFinding with snippet := some "  foo   bar\n  baz  " } =
      "foo bar baz") ∧
    (∀ (f : Finding) (r₁ r₂ : String), r₁ ≠ r₂ →
      fingerprintInput f r₁ ≠ fingerprintInput f r₂) ∧
    (Finding.fingerprint cexFinding "security-python" ≠
      Finding.fingerprint cexFinding "security-swift") := by
  refine ⟨fun f r => rfl, fun f r => rfl, ?_, by decide, ?_, by decide⟩
  · intro f₁ f₂ r hfile hline htype hsnip
    unfold Finding.fingerprint fingerprintInput
    rw [hfile, hline, htype, hsnip]
  · intro f r₁ r₂ hne heq
    apply hne
    unfold fingerprintInput at heq
    have hdata := congrArg String.data heq
    simp only [String.data_append, List.append_assoc] at hdata
    have hcancel := List.append_cancel_right hdata
    cases r₁ with
    | mk d₁ =>
        cases r₂ with
        | mk d₂ => exact congrArg String.mk hcancel

/-- Witness for C1: the repository-test snippet pair (whitespace variation
only) has equal fingerprints, and the repository-test reviewer-id pair has
distinct hash inputs. -/
theorem C1_fingerprint_spec_witness :
    (Finding.fingerprint
        { cexFinding with snippet := some "  foo   bar\n  baz  " }
        "security-python" =
      Finding.fingerprint
        { cexFinding with snippet := some "foo bar baz" } "security-python") ∧
    (fingerprintInput cexFinding "security-python" ≠
      fingerprintInput cexFinding "security-swift") :=
  ⟨C1_fingerprint_spec.2.2.1
      { cexFinding with snippet := some "  foo   bar\n  baz  " }
      { cexFinding with snippet := some "foo bar baz" }
      "security-python" rfl rfl rfl (by decide),
    C1_fingerprint_spec.2.2.2.2.1 cexFinding "security-python" "security-swift"
      (by decide)⟩

end Polyrev
